import Mathlib

/-!
# Verification of the Candy VM core (`language-candy`)

A shallow embedding, in Lean 4, of the parts of the repository's virtual
machine that the frozen claims are about:

* the internal-channel subsystem of `src/compiler/src/vm/mod.rs`
  (`InternalChannel::send/receive/work_on_pending_operations`);
* the fiber-tree status aggregation (`Vm::status_of`) and the nursery spawn
  path (`Vm::send_to_channel`, `Vm::parse_spawn_packet`) of the same file;
* the heap value model of `src/compiler/vm/src/heap/object.rs`
  (`Data::equals`, `Data::hash_with_cache`, `Struct::insert/get`);
* the older-generation byte-code interpreter of `src/compiler/src/vm/vm.rs`
  (`Vm::run`, `Vm::run_instruction`, `Vm::start_closure`).

Functions that recurse through a heap or through a fiber forest are given an
explicit `fuel` parameter: in the Rust sources those recursions terminate
because heaps are acyclic and fiber trees are finite forests; the fuel makes
the same recursions structural here.  Theorems quantify over the fuel, so no
strength is lost for well-formed inputs.

Parts of the repository that the claims depend on but that are not among the
provided sources (`channel.rs`, `fiber.rs`, and the old generation's
`heap.rs`/`value.rs`) are modelled from the specification; each such
definition carries a doc comment starting with `Modelled from the spec:`.
-/

set_option maxHeartbeats 1000000

/-! ## Channel subsystem (`src/compiler/src/vm/mod.rs`, `InternalChannel`) -/

/-- Fiber identifiers (`struct FiberId(usize)`). -/
abbrev FiberId := Nat

/-- Channel identifiers (`ChannelId`). -/
abbrev ChannelId := Nat

/-- A packet travelling through a channel (`channel::Packet`, a heap plus a
root value).  For the queue-dynamics claims the contents are irrelevant, so
packets are opaque tokens here. -/
abbrev Packet := Nat

/-- Modelled from the spec: `ChannelBuf` lives in `vm/channel.rs`, which is
not among the sources.  Per §3/§4.2 of the spec it is a capacity-bounded FIFO
buffer: it "only accepts a send when `len < capacity`", so it is full when
`len ≥ capacity`; `send` enqueues at the back and `receive` dequeues the
oldest packet.  `ChannelBuf::new(capacity)` starts out empty. -/
structure ChannelBuf where
  capacity : Nat
  packets : List Packet
  deriving Repr, DecidableEq

/-- Modelled from the spec: `ChannelBuf::new` — an empty buffer. -/
def ChannelBuf.new (capacity : Nat) : ChannelBuf := ⟨capacity, []⟩

/-- Modelled from the spec: `ChannelBuf::is_full`. -/
def ChannelBuf.isFull (b : ChannelBuf) : Bool := b.capacity ≤ b.packets.length

/-- Modelled from the spec: `ChannelBuf::is_empty`. -/
def ChannelBuf.isEmpty (b : ChannelBuf) : Bool := b.packets.isEmpty

/-- Modelled from the spec: `ChannelBuf::send` enqueues at the back. -/
def ChannelBuf.send (b : ChannelBuf) (p : Packet) : ChannelBuf :=
  ⟨b.capacity, b.packets ++ [p]⟩

/-- Completions performed on the fiber map.  `fiber.rs` is not among the
sources, so instead of mutating fibers we record each call to
`InternalChannel::complete_send` / `complete_receive` as an event (when the
`Option<FiberId>` is `None` the call is a no-op on the fibers in the source;
the event still marks that the operation completed). -/
inductive ChannelEvent where
  | sendCompleted (fiber : Option FiberId)
  | receiveCompleted (fiber : Option FiberId) (packet : Packet)
  deriving Repr, DecidableEq

/-- The `Channel::Internal` payload: a buffer plus FIFO queues of pending
sends and pending receives (`struct InternalChannel`). -/
structure InternalChannel where
  buffer : ChannelBuf
  pendingSends : List (Option FiberId × Packet)
  pendingReceives : List (Option FiberId)
  deriving Repr, DecidableEq

/-- The zero-capacity loop of `work_on_pending_operations`: while both queues
are non-empty, pop the oldest send and the oldest receive and complete both
(`complete_send` then `complete_receive`). -/
def workZeroLoop :
    List (Option FiberId × Packet) → List (Option FiberId) →
    List (Option FiberId × Packet) × List (Option FiberId) × List ChannelEvent
  | (f, p) :: ss, r :: rs =>
      let (ss', rs', w) := workZeroLoop ss rs
      (ss', rs', .sendCompleted f :: .receiveCompleted r p :: w)
  | ss, rs => (ss, rs, [])

/-- State of the buffered (`capacity > 0`) loop of
`work_on_pending_operations`, together with the completion events emitted so
far. -/
structure BufLoopState where
  buffer : ChannelBuf
  sends : List (Option FiberId × Packet)
  receives : List (Option FiberId)
  events : List ChannelEvent
  deriving Repr, DecidableEq

/-- First half of a loop iteration:
`if !self.buffer.is_full() && let Some((fiber, packet)) = self.pending_sends.pop_front()`
— move the oldest pending send into the buffer and complete the sender. -/
def tryPopSend (s : BufLoopState) : BufLoopState × Bool :=
  if !s.buffer.isFull then
    match s.sends with
    | (f, p) :: ss =>
        (⟨s.buffer.send p, ss, s.receives, s.events ++ [.sendCompleted f]⟩, true)
    | [] => (s, false)
  else (s, false)

/-- Second half of a loop iteration:
`if !self.buffer.is_empty() && let Some(fiber) = self.pending_receives.pop_front()`
— complete the oldest pending receive with the oldest buffered packet. -/
def tryPopReceive (s : BufLoopState) : BufLoopState × Bool :=
  if !s.buffer.isEmpty then
    match s.receives, s.buffer.packets with
    | r :: rs, p :: ps =>
        (⟨⟨s.buffer.capacity, ps⟩, s.sends, rs, s.events ++ [.receiveCompleted r p]⟩, true)
    | _, _ => (s, false)
  else (s, false)

/-- The `capacity > 0` loop of `work_on_pending_operations`: repeat the two
steps until an iteration performs no operation.  Each productive iteration
strictly shrinks `|sends| + |receives|`, so a fuel of
`|sends| + |receives| + 1` always suffices; the fuel only makes the
termination structural. -/
def workBufLoop : Nat → BufLoopState → BufLoopState
  | 0, s => s
  | fuel + 1, s =>
      let t1 := tryPopSend s
      let t2 := tryPopReceive t1.1
      if t1.2 || t2.2 then workBufLoop fuel t2.1 else t2.1

/-- `InternalChannel::work_on_pending_operations`, returning the updated
channel and the completion events it performed, in order. -/
def InternalChannel.workOnPendingOperations (ch : InternalChannel) :
    InternalChannel × List ChannelEvent :=
  if ch.buffer.capacity = 0 then
    let t := workZeroLoop ch.pendingSends ch.pendingReceives
    (⟨ch.buffer, t.1, t.2.1⟩, t.2.2)
  else
    let s := workBufLoop (ch.pendingSends.length + ch.pendingReceives.length + 1)
      ⟨ch.buffer, ch.pendingSends, ch.pendingReceives, []⟩
    (⟨s.buffer, s.sends, s.receives⟩, s.events)

/-- `InternalChannel::send`: enqueue the request, then drain. -/
def InternalChannel.send (ch : InternalChannel) (performingFiber : Option FiberId)
    (packet : Packet) : InternalChannel × List ChannelEvent :=
  InternalChannel.workOnPendingOperations
    ⟨ch.buffer, ch.pendingSends ++ [(performingFiber, packet)], ch.pendingReceives⟩

/-- `InternalChannel::receive`: enqueue the request, then drain. -/
def InternalChannel.receive (ch : InternalChannel) (performingFiber : Option FiberId) :
    InternalChannel × List ChannelEvent :=
  InternalChannel.workOnPendingOperations
    ⟨ch.buffer, ch.pendingSends, ch.pendingReceives ++ [performingFiber]⟩

/-- A fresh internal channel, as allocated by `Vm::run` for
`Status::CreatingChannel`: `ChannelBuf::new(capacity)` with empty pending
queues. -/
def InternalChannel.create (capacity : Nat) : InternalChannel :=
  ⟨ChannelBuf.new capacity, [], []⟩

/-- The senders of the `sendCompleted` events of a trace, in order. -/
def completedSenders (w : List ChannelEvent) : List (Option FiberId) :=
  w.filterMap fun e => match e with
    | .sendCompleted f => some f
    | _ => none

/-- The `(receiver, packet)` pairs of the `receiveCompleted` events of a
trace, in order. -/
def completedReceives (w : List ChannelEvent) : List (Option FiberId × Packet) :=
  w.filterMap fun e => match e with
    | .receiveCompleted f p => some (f, p)
    | _ => none

@[simp] theorem completedSenders_nil : completedSenders [] = [] := rfl

@[simp] theorem completedReceives_nil : completedReceives [] = [] := rfl

@[simp] theorem completedSenders_append (w w' : List ChannelEvent) :
    completedSenders (w ++ w') = completedSenders w ++ completedSenders w' :=
  List.filterMap_append w w' _

@[simp] theorem completedReceives_append (w w' : List ChannelEvent) :
    completedReceives (w ++ w') = completedReceives w ++ completedReceives w' :=
  List.filterMap_append w w' _

/-! ### The take/drop shape of one drain of the pending queues

`work_on_pending_operations` only ever removes a prefix of each pending
queue, appends the accepted packets to the buffer in arrival order, and
delivers buffered packets in order.  `Shape s t ns nr` records exactly that:
going from loop state `s` to loop state `t`, the first `ns` pending sends
were accepted and the first `nr` pending receives were completed. -/

def Shape (s t : BufLoopState) (ns nr : Nat) : Prop :=
  ns ≤ s.sends.length ∧
  nr ≤ s.receives.length ∧
  nr ≤ s.buffer.packets.length + ns ∧
  t.buffer.capacity = s.buffer.capacity ∧
  t.buffer.packets = (s.buffer.packets ++ (s.sends.take ns).map Prod.snd).drop nr ∧
  t.sends = s.sends.drop ns ∧
  t.receives = s.receives.drop nr ∧
  completedSenders t.events = completedSenders s.events ++ (s.sends.take ns).map Prod.fst ∧
  completedReceives t.events = completedReceives s.events ++
    (s.receives.take nr).zip ((s.buffer.packets ++ (s.sends.take ns).map Prod.snd).take nr)

theorem Shape.refl (s : BufLoopState) : Shape s s 0 0 := by
  simp [Shape]

theorem Shape.comp {s t u : BufLoopState} {ns nr ns' nr' : Nat}
    (h1 : Shape s t ns nr) (h2 : Shape t u ns' nr') :
    Shape s u (ns + ns') (nr + nr') := by
  obtain ⟨hs1, hr1, hb1, hc1, hp1, hsd1, hrd1, hes1, her1⟩ := h1
  obtain ⟨hs2, hr2, hb2, hc2, hp2, hsd2, hrd2, hes2, her2⟩ := h2
  have hlen_take_ns : ((s.sends.take ns).map Prod.snd).length = ns := by
    simp [List.length_take]; omega
  have hPA : nr ≤ (s.buffer.packets ++ (s.sends.take ns).map Prod.snd).length := by
    simp [hlen_take_ns]; omega
  -- take (ns + ns') of the send queue splits at ns
  have htake : s.sends.take (ns + ns') = s.sends.take ns ++ (s.sends.drop ns).take ns' :=
    List.take_add s.sends ns ns'
  have hX : s.buffer.packets ++ (s.sends.take (ns + ns')).map Prod.snd =
      (s.buffer.packets ++ (s.sends.take ns).map Prod.snd) ++
        ((s.sends.drop ns).take ns').map Prod.snd := by
    rw [htake, List.map_append, List.append_assoc]
  refine ⟨?_, ?_, ?_, ?_, ?_, ?_, ?_, ?_, ?_⟩
  · have := hsd1 ▸ hs2
    simp [List.length_drop] at this
    omega
  · have := hrd1 ▸ hr2
    simp [List.length_drop] at this
    omega
  · have hlen : t.buffer.packets.length =
        (s.buffer.packets.length + ns) - nr := by
      rw [hp1]
      simp only [List.length_drop, List.length_append, hlen_take_ns]
    omega
  · rw [hc2, hc1]
  · rw [hp2, hsd1, hp1, hX, ← List.drop_append_of_le_length hPA, List.drop_drop]
  · rw [hsd2, hsd1, List.drop_drop]
  · rw [hrd2, hrd1, List.drop_drop]
  · rw [hes2, hes1, hsd1, htake, List.map_append, List.append_assoc]
  · rw [her2, her1, hrd1, hsd1, hp1, hX]
    rw [List.append_assoc]
    congr 1
    have hsplitR : s.receives.take (nr + nr') =
        s.receives.take nr ++ (s.receives.drop nr).take nr' := List.take_add _ _ _
    have hsplitX : ((s.buffer.packets ++ (s.sends.take ns).map Prod.snd) ++
          ((s.sends.drop ns).take ns').map Prod.snd).take (nr + nr') =
        (s.buffer.packets ++ (s.sends.take ns).map Prod.snd).take nr ++
          ((s.buffer.packets ++ (s.sends.take ns).map Prod.snd).drop nr ++
            ((s.sends.drop ns).take ns').map Prod.snd).take nr' := by
      rw [List.take_add]
      congr 1
      · exact List.take_append_of_le_length hPA
      · rw [List.drop_append_of_le_length hPA]
    rw [hsplitR, hsplitX, List.zip_append]
    have h1 : (List.take nr s.receives).length = nr := by
      rw [List.length_take]; omega
    have h2 : (List.take nr
        (s.buffer.packets ++ List.map Prod.snd (List.take ns s.sends))).length = nr := by
      rw [List.length_take, List.length_append, hlen_take_ns]; omega
    rw [h1, h2]

/-- `tryPopSend`, when it pops, realises `Shape _ _ 1 0`. -/
theorem tryPopSend_shape (s : BufLoopState) :
    ((tryPopSend s).2 = true → Shape s (tryPopSend s).1 1 0) ∧
    ((tryPopSend s).2 = false → (tryPopSend s).1 = s) := by
  obtain ⟨⟨cap, packets⟩, sends, receives, events⟩ := s
  unfold tryPopSend
  by_cases hfull : ChannelBuf.isFull ⟨cap, packets⟩
  · simp [hfull]
  · cases sends with
    | nil => simp [hfull]
    | cons sp ss =>
      obtain ⟨f, p⟩ := sp
      simp only [hfull, Bool.not_true, Bool.not_false, if_true]
      refine ⟨fun _ => ?_, fun h => by simp at h⟩
      refine ⟨by simp, by simp, by simp, rfl, ?_, by simp, by simp, ?_, ?_⟩
      · simp [ChannelBuf.send]
      · simp [completedSenders, List.filterMap_append]
      · simp [completedReceives, List.filterMap_append]

/-- `tryPopReceive`, when it pops, realises `Shape _ _ 0 1`. -/
theorem tryPopReceive_shape (s : BufLoopState) :
    ((tryPopReceive s).2 = true → Shape s (tryPopReceive s).1 0 1) ∧
    ((tryPopReceive s).2 = false → (tryPopReceive s).1 = s) := by
  obtain ⟨⟨cap, packets⟩, sends, receives, events⟩ := s
  unfold tryPopReceive
  by_cases hempty : ChannelBuf.isEmpty ⟨cap, packets⟩
  · simp [hempty]
  · cases receives with
    | nil => simp [hempty]
    | cons r rs =>
      cases packets with
      | nil => simp [ChannelBuf.isEmpty] at hempty
      | cons q qs =>
        simp only [hempty, Bool.not_true, Bool.not_false, if_true]
        refine ⟨fun _ => ?_, fun h => by simp at h⟩
        refine ⟨by simp, by simp, by simp, rfl, by simp, by simp, by simp, ?_, ?_⟩
        · simp [completedSenders, List.filterMap_append]
        · simp [completedReceives, List.filterMap_append]

/-- When `tryPopSend` does nothing, the buffer was full or no send was
pending. -/
theorem tryPopSend_stuck (s : BufLoopState) (h : (tryPopSend s).2 = false) :
    s.buffer.isFull = true ∨ s.sends = [] := by
  unfold tryPopSend at h
  by_cases hfull : s.buffer.isFull
  · exact Or.inl hfull
  · cases hs : s.sends with
    | nil => exact Or.inr rfl
    | cons sp ss =>
      obtain ⟨f, p⟩ := sp
      rw [hs] at h
      simp [hfull] at h

/-- When `tryPopReceive` does nothing, the buffer was empty or no receive was
pending. -/
theorem tryPopReceive_stuck (s : BufLoopState) (h : (tryPopReceive s).2 = false) :
    s.buffer.packets = [] ∨ s.receives = [] := by
  unfold tryPopReceive at h
  by_cases hempty : s.buffer.isEmpty
  · simp [ChannelBuf.isEmpty, List.isEmpty_iff] at hempty
    exact Or.inl hempty
  · cases hr : s.receives with
    | nil => exact Or.inr rfl
    | cons r rs =>
      cases hp : s.buffer.packets with
      | nil => simp [ChannelBuf.isEmpty, hp] at hempty
      | cons q qs =>
        rw [hr, hp] at h
        simp [hempty] at h

/-- Every run of the buffered loop has the take/drop `Shape` for some number
of accepted sends and completed receives. -/
theorem workBufLoop_shape : ∀ (fuel : Nat) (s : BufLoopState),
    ∃ ns nr, Shape s (workBufLoop fuel s) ns nr := by
  intro fuel
  induction fuel with
  | zero => exact fun s => ⟨0, 0, Shape.refl s⟩
  | succ n ih =>
    intro s
    simp only [workBufLoop]
    cases h1 : (tryPopSend s).2 with
    | true =>
      have sh1 : Shape s (tryPopSend s).1 1 0 := (tryPopSend_shape s).1 h1
      cases h2 : (tryPopReceive (tryPopSend s).1).2 with
      | true =>
        have sh2 : Shape (tryPopSend s).1 (tryPopReceive (tryPopSend s).1).1 0 1 :=
          (tryPopReceive_shape _).1 h2
        obtain ⟨ns, nr, sh3⟩ := ih (tryPopReceive (tryPopSend s).1).1
        refine ⟨1 + ns, 1 + nr, ?_⟩
        simp only [h1, h2, Bool.true_or, if_true]
        simpa using (sh1.comp sh2).comp sh3
      | false =>
        have hbridge : Shape (tryPopSend s).1 (tryPopReceive (tryPopSend s).1).1 0 0 := by
          rw [(tryPopReceive_shape _).2 h2]
          exact Shape.refl _
        obtain ⟨ns, nr, sh3⟩ := ih (tryPopReceive (tryPopSend s).1).1
        refine ⟨1 + ns, nr, ?_⟩
        simp only [h1, h2, Bool.true_or, if_true]
        simpa using (sh1.comp hbridge).comp sh3
    | false =>
      have hbridge1 : Shape s (tryPopSend s).1 0 0 := by
        rw [(tryPopSend_shape s).2 h1]
        exact Shape.refl _
      cases h2 : (tryPopReceive (tryPopSend s).1).2 with
      | true =>
        have sh2 : Shape (tryPopSend s).1 (tryPopReceive (tryPopSend s).1).1 0 1 :=
          (tryPopReceive_shape _).1 h2
        obtain ⟨ns, nr, sh3⟩ := ih (tryPopReceive (tryPopSend s).1).1
        refine ⟨ns, 1 + nr, ?_⟩
        simp only [h1, h2, Bool.false_or, if_true]
        simpa using (hbridge1.comp sh2).comp sh3
      | false =>
        refine ⟨0, 0, ?_⟩
        simp only [h1, h2, Bool.or_self, if_false]
        rw [(tryPopReceive_shape _).2 h2, (tryPopSend_shape s).2 h1]
        exact Shape.refl s

/-- `tryPopSend` keeps the buffer within its capacity. -/
theorem tryPopSend_le (s : BufLoopState) (h : s.buffer.packets.length ≤ s.buffer.capacity) :
    (tryPopSend s).1.buffer.capacity = s.buffer.capacity ∧
    (tryPopSend s).1.buffer.packets.length ≤ s.buffer.capacity := by
  unfold tryPopSend
  cases hfull : s.buffer.isFull with
  | true => simp [hfull, h]
  | false =>
    cases hs : s.sends with
    | nil => simp [hfull, hs, h]
    | cons sp ss =>
      obtain ⟨f, p⟩ := sp
      have hlt : s.buffer.packets.length < s.buffer.capacity := by
        simp [ChannelBuf.isFull] at hfull
        omega
      simp [hfull, hs, ChannelBuf.send]
      omega

/-- `tryPopReceive` keeps the buffer within its capacity. -/
theorem tryPopReceive_le (s : BufLoopState) (h : s.buffer.packets.length ≤ s.buffer.capacity) :
    (tryPopReceive s).1.buffer.capacity = s.buffer.capacity ∧
    (tryPopReceive s).1.buffer.packets.length ≤ s.buffer.capacity := by
  unfold tryPopReceive
  cases hempty : s.buffer.isEmpty with
  | true => simp [hempty, h]
  | false =>
    cases hr : s.receives with
    | nil => simp [hempty, hr, h]
    | cons r rs =>
      cases hp : s.buffer.packets with
      | nil => simp [ChannelBuf.isEmpty, hp] at hempty
      | cons q qs =>
        have h' : qs.length + 1 ≤ s.buffer.capacity := by
          rw [hp] at h
          simpa using h
        simp [hempty, hr, hp]
        omega

/-- The buffered loop never overfills the buffer and never changes its
capacity. -/
theorem workBufLoop_le : ∀ (fuel : Nat) (s : BufLoopState),
    s.buffer.packets.length ≤ s.buffer.capacity →
    (workBufLoop fuel s).buffer.capacity = s.buffer.capacity ∧
    (workBufLoop fuel s).buffer.packets.length ≤ s.buffer.capacity := by
  intro fuel
  induction fuel with
  | zero => exact fun s h => ⟨rfl, h⟩
  | succ n ih =>
    intro s h
    simp only [workBufLoop]
    obtain ⟨hc1, hl1⟩ := tryPopSend_le s h
    obtain ⟨hc2, hl2⟩ := tryPopReceive_le (tryPopSend s).1 (by omega)
    rw [hc1] at hc2 hl2
    cases hb : ((tryPopSend s).2 || (tryPopReceive (tryPopSend s).1).2) with
    | true =>
      simp only [if_true]
      obtain ⟨ihc, ihl⟩ := ih (tryPopReceive (tryPopSend s).1).1 (by omega)
      rw [hc2] at ihc ihl
      exact ⟨ihc, ihl⟩
    | false => exact ⟨hc2, hl2⟩

/-- With enough fuel the loop runs to quiescence: at the end either the
buffer is full or no send is pending, and either the buffer is empty or no
receive is pending. -/
theorem workBufLoop_quiescent : ∀ (fuel : Nat) (s : BufLoopState),
    s.sends.length + s.receives.length < fuel →
    ((workBufLoop fuel s).buffer.isFull = true ∨ (workBufLoop fuel s).sends = []) ∧
    ((workBufLoop fuel s).buffer.packets = [] ∨ (workBufLoop fuel s).receives = []) := by
  intro fuel
  induction fuel with
  | zero => omega
  | succ n ih =>
    intro s hfuel
    simp only [workBufLoop]
    cases h1 : (tryPopSend s).2 with
    | true =>
      have sh1 : Shape s (tryPopSend s).1 1 0 := (tryPopSend_shape s).1 h1
      obtain ⟨hns, -, -, -, -, hsd, hrd, -, -⟩ := sh1
      have e1 : (tryPopSend s).1.sends.length = s.sends.length - 1 := by
        rw [hsd]; simp
      have e2 : (tryPopSend s).1.receives.length = s.receives.length := by
        rw [hrd]; simp
      cases h2 : (tryPopReceive (tryPopSend s).1).2 with
      | true =>
        have sh2 : Shape (tryPopSend s).1 (tryPopReceive (tryPopSend s).1).1 0 1 :=
          (tryPopReceive_shape _).1 h2
        obtain ⟨-, hnr2, -, -, -, hsd2, hrd2, -, -⟩ := sh2
        have e3 : (tryPopReceive (tryPopSend s).1).1.sends.length =
            (tryPopSend s).1.sends.length := by rw [hsd2]; simp
        have e4 : (tryPopReceive (tryPopSend s).1).1.receives.length =
            (tryPopSend s).1.receives.length - 1 := by rw [hrd2]; simp
        simp only [h1, h2, Bool.true_or, if_true]
        apply ih
        omega
      | false =>
        have heq : (tryPopReceive (tryPopSend s).1).1 = (tryPopSend s).1 :=
          (tryPopReceive_shape _).2 h2
        simp only [h1, h2, Bool.true_or, if_true]
        apply ih
        rw [heq]
        omega
    | false =>
      have heq1 : (tryPopSend s).1 = s := (tryPopSend_shape s).2 h1
      cases h2 : (tryPopReceive (tryPopSend s).1).2 with
      | true =>
        have sh2 : Shape (tryPopSend s).1 (tryPopReceive (tryPopSend s).1).1 0 1 :=
          (tryPopReceive_shape _).1 h2
        obtain ⟨-, hnr2, -, -, -, hsd2, hrd2, -, -⟩ := sh2
        have e3 : (tryPopReceive (tryPopSend s).1).1.sends.length =
            (tryPopSend s).1.sends.length := by rw [hsd2]; simp
        have e4 : (tryPopReceive (tryPopSend s).1).1.receives.length =
            (tryPopSend s).1.receives.length - 1 := by rw [hrd2]; simp
        have e1 : (tryPopSend s).1.sends.length = s.sends.length := by rw [heq1]
        have e2 : (tryPopSend s).1.receives.length = s.receives.length := by rw [heq1]
        simp only [h1, h2, Bool.false_or, if_true]
        apply ih
        omega
      | false =>
        have heq2 := (tryPopReceive_shape (tryPopSend s).1).2 h2
        simp only [h1, h2, Bool.or_self, Bool.false_eq_true, if_false]
        rw [heq2, heq1]
        constructor
        · exact tryPopSend_stuck s h1
        · have h5 := tryPopReceive_stuck (tryPopSend s).1 h2
          rwa [heq1] at h5

/-- Closed form of the zero-capacity loop: it pops
`min |sends| |receives|` entries off the front of both queues and completes
them pairwise, oldest first. -/
theorem workZeroLoop_eq : ∀ (ss : List (Option FiberId × Packet)) (rs : List (Option FiberId)),
    workZeroLoop ss rs =
      (ss.drop (min ss.length rs.length), rs.drop (min ss.length rs.length),
        (ss.zip rs).flatMap fun sr =>
          [.sendCompleted sr.1.1, .receiveCompleted sr.2 sr.1.2])
  | [], rs => by simp [workZeroLoop]
  | (f, p) :: ss, [] => by simp [workZeroLoop]
  | (f, p) :: ss, r :: rs => by
      simp only [workZeroLoop, workZeroLoop_eq ss rs, List.zip_cons_cons, List.flatMap_cons,
        List.length_cons, Nat.succ_min_succ, List.drop_succ_cons]
      simp

/-- Sender projection of the zero-capacity pairing events. -/
theorem zeroFlat_senders : ∀ (ss : List (Option FiberId × Packet)) (rs : List (Option FiberId)),
    completedSenders ((ss.zip rs).flatMap fun sr =>
        [ChannelEvent.sendCompleted sr.1.1, ChannelEvent.receiveCompleted sr.2 sr.1.2]) =
      (ss.take (min ss.length rs.length)).map Prod.fst
  | [], rs => by simp
  | (f, p) :: ss, [] => by simp
  | (f, p) :: ss, r :: rs => by
      simp only [List.zip_cons_cons, List.flatMap_cons, List.length_cons, Nat.succ_min_succ,
        List.take_succ_cons, List.map_cons]
      rw [← zeroFlat_senders ss rs]
      simp [completedSenders]

/-- Receive projection of the zero-capacity pairing events. -/
theorem zeroFlat_receives : ∀ (ss : List (Option FiberId × Packet)) (rs : List (Option FiberId)),
    completedReceives ((ss.zip rs).flatMap fun sr =>
        [ChannelEvent.sendCompleted sr.1.1, ChannelEvent.receiveCompleted sr.2 sr.1.2]) =
      (rs.take (min ss.length rs.length)).zip
        ((ss.take (min ss.length rs.length)).map Prod.snd)
  | [], rs => by simp
  | (f, p) :: ss, [] => by simp
  | (f, p) :: ss, r :: rs => by
      simp only [List.zip_cons_cons, List.flatMap_cons, List.length_cons, Nat.succ_min_succ,
        List.take_succ_cons, List.map_cons]
      rw [← zeroFlat_receives ss rs]
      simp [completedReceives]

/-- Every call of `work_on_pending_operations` (zero-capacity or buffered)
removes a prefix of each pending queue, appends the accepted packets to the
buffer in arrival order, and delivers buffered packets in arrival order.
The hypothesis is the channel invariant that a zero-capacity channel holds no
buffered packet. -/
theorem InternalChannel.work_shape (ch : InternalChannel)
    (h0 : ch.buffer.capacity = 0 → ch.buffer.packets = []) :
    ∃ ns nr,
      ns ≤ ch.pendingSends.length ∧
      nr ≤ ch.pendingReceives.length ∧
      nr ≤ ch.buffer.packets.length + ns ∧
      ch.workOnPendingOperations.1.buffer.capacity = ch.buffer.capacity ∧
      ch.workOnPendingOperations.1.buffer.packets =
        (ch.buffer.packets ++ (ch.pendingSends.take ns).map Prod.snd).drop nr ∧
      ch.workOnPendingOperations.1.pendingSends = ch.pendingSends.drop ns ∧
      ch.workOnPendingOperations.1.pendingReceives = ch.pendingReceives.drop nr ∧
      completedSenders ch.workOnPendingOperations.2 =
        (ch.pendingSends.take ns).map Prod.fst ∧
      completedReceives ch.workOnPendingOperations.2 =
        (ch.pendingReceives.take nr).zip
          ((ch.buffer.packets ++ (ch.pendingSends.take ns).map Prod.snd).take nr) := by
  by_cases hcap : ch.buffer.capacity = 0
  · have hemp := h0 hcap
    have hwork : ch.workOnPendingOperations =
        (⟨ch.buffer,
          ch.pendingSends.drop (min ch.pendingSends.length ch.pendingReceives.length),
          ch.pendingReceives.drop (min ch.pendingSends.length ch.pendingReceives.length)⟩,
         (ch.pendingSends.zip ch.pendingReceives).flatMap fun sr =>
           [.sendCompleted sr.1.1, .receiveCompleted sr.2 sr.1.2]) := by
      simp [InternalChannel.workOnPendingOperations, hcap, workZeroLoop_eq]
    have hmaplen : ((ch.pendingSends.take
          (min ch.pendingSends.length ch.pendingReceives.length)).map Prod.snd).length =
        min ch.pendingSends.length ch.pendingReceives.length := by
      simp [List.length_take]
    refine ⟨min ch.pendingSends.length ch.pendingReceives.length,
      min ch.pendingSends.length ch.pendingReceives.length,
      by omega, by omega, by omega, by rw [hwork], ?_, by rw [hwork], by rw [hwork], ?_, ?_⟩
    · rw [hwork, hemp, List.nil_append, eq_comm, List.drop_eq_nil_iff, hmaplen]
    · rw [hwork]
      exact zeroFlat_senders _ _
    · rw [hwork, hemp, List.nil_append]
      rw [zeroFlat_receives]
      congr 1
      rw [List.take_of_length_le (le_of_eq hmaplen)]
  · obtain ⟨ns, nr, hns, hnr, hb, hc, hp, hs, hr, hes, her⟩ :=
      workBufLoop_shape (ch.pendingSends.length + ch.pendingReceives.length + 1)
        ⟨ch.buffer, ch.pendingSends, ch.pendingReceives, []⟩
    have hwork : ch.workOnPendingOperations =
        (⟨(workBufLoop (ch.pendingSends.length + ch.pendingReceives.length + 1)
             ⟨ch.buffer, ch.pendingSends, ch.pendingReceives, []⟩).buffer,
          (workBufLoop (ch.pendingSends.length + ch.pendingReceives.length + 1)
             ⟨ch.buffer, ch.pendingSends, ch.pendingReceives, []⟩).sends,
          (workBufLoop (ch.pendingSends.length + ch.pendingReceives.length + 1)
             ⟨ch.buffer, ch.pendingSends, ch.pendingReceives, []⟩).receives⟩,
         (workBufLoop (ch.pendingSends.length + ch.pendingReceives.length + 1)
             ⟨ch.buffer, ch.pendingSends, ch.pendingReceives, []⟩).events) := by
      simp [InternalChannel.workOnPendingOperations, hcap]
    refine ⟨ns, nr, hns, hnr, hb, ?_, ?_, ?_, ?_, ?_, ?_⟩ <;> rw [hwork]
    · exact hc
    · exact hp
    · exact hs
    · exact hr
    · simpa using hes
    · simpa using her

/-- `work_on_pending_operations` keeps the buffer within its capacity and
never changes the capacity. -/
theorem InternalChannel.work_le (ch : InternalChannel)
    (h : ch.buffer.packets.length ≤ ch.buffer.capacity) :
    ch.workOnPendingOperations.1.buffer.capacity = ch.buffer.capacity ∧
    ch.workOnPendingOperations.1.buffer.packets.length ≤ ch.buffer.capacity := by
  by_cases hcap : ch.buffer.capacity = 0
  · unfold InternalChannel.workOnPendingOperations
    rw [if_pos hcap]
    exact ⟨rfl, h⟩
  · unfold InternalChannel.workOnPendingOperations
    rw [if_neg hcap]
    exact workBufLoop_le _ ⟨ch.buffer, ch.pendingSends, ch.pendingReceives, []⟩ h

/-- `tryPopSend` does nothing when the buffer is full or no send is
pending. -/
theorem tryPopSend_noop (s : BufLoopState)
    (h : s.buffer.isFull = true ∨ s.sends = []) : tryPopSend s = (s, false) := by
  unfold tryPopSend
  rcases h with h | h
  · simp [h]
  · cases hfull : s.buffer.isFull <;> simp [h, hfull]

/-- `tryPopReceive` does nothing when the buffer is empty or no receive is
pending. -/
theorem tryPopReceive_noop (s : BufLoopState)
    (h : s.buffer.packets = [] ∨ s.receives = []) : tryPopReceive s = (s, false) := by
  unfold tryPopReceive
  rcases h with h | h
  · simp [ChannelBuf.isEmpty, h]
  · cases hempty : s.buffer.isEmpty
    · cases hp : s.buffer.packets with
      | nil => simp [ChannelBuf.isEmpty, hp] at hempty
      | cons q qs => simp [hempty, h, hp]
    · simp [hempty]

/-- A stuck loop state is a fixed point of the buffered loop. -/
theorem workBufLoop_stuck (fuel : Nat) (s : BufLoopState)
    (h1 : s.buffer.isFull = true ∨ s.sends = [])
    (h2 : s.buffer.packets = [] ∨ s.receives = []) : workBufLoop fuel s = s := by
  induction fuel with
  | zero => rfl
  | succ n ih =>
    simp only [workBufLoop, tryPopSend_noop s h1, tryPopReceive_noop s h2, Bool.or_self,
      Bool.false_eq_true, if_false]

/-- On a zero-capacity channel `work_on_pending_operations` is exactly the
pairwise rendezvous: both queues lose their common prefix, each oldest send
is completed together with the oldest receive, and the buffer is not
touched. -/
theorem workOnPending_zero (ch : InternalChannel) (hcap : ch.buffer.capacity = 0) :
    ch.workOnPendingOperations =
      ({ buffer := ch.buffer,
         pendingSends :=
           ch.pendingSends.drop (min ch.pendingSends.length ch.pendingReceives.length),
         pendingReceives :=
           ch.pendingReceives.drop (min ch.pendingSends.length ch.pendingReceives.length) },
       (ch.pendingSends.zip ch.pendingReceives).flatMap fun sr =>
         [.sendCompleted sr.1.1, .receiveCompleted sr.2 sr.1.2]) := by
  simp [InternalChannel.workOnPendingOperations, hcap, workZeroLoop_eq]

/-- **C1.** For every zero-capacity `Internal` channel (whose buffer, per the
channel invariant, is empty), `work_on_pending_operations` pairs the oldest
pending send with the oldest pending receive and completes both in the same
scheduling step — the emitted events are exactly the pairwise completions of
the common prefix of the two queues, in order — and the channel's buffer is
empty after the drain, as well as after any `send` or `receive` operation. -/
theorem c1_zero_capacity_rendezvous (ch : InternalChannel)
    (hcap : ch.buffer.capacity = 0) (hbuf : ch.buffer.packets = []) :
    ch.workOnPendingOperations =
      ({ buffer := ch.buffer,
         pendingSends :=
           ch.pendingSends.drop (min ch.pendingSends.length ch.pendingReceives.length),
         pendingReceives :=
           ch.pendingReceives.drop (min ch.pendingSends.length ch.pendingReceives.length) },
       (ch.pendingSends.zip ch.pendingReceives).flatMap fun sr =>
         [.sendCompleted sr.1.1, .receiveCompleted sr.2 sr.1.2]) ∧
    ch.workOnPendingOperations.1.buffer.packets = [] ∧
    (∀ f p, (ch.send f p).1.buffer.packets = []) ∧
    (∀ f, (ch.receive f).1.buffer.packets = []) := by
  refine ⟨workOnPending_zero ch hcap, ?_, ?_, ?_⟩
  · rw [workOnPending_zero ch hcap]
    exact hbuf
  · intro f p
    rw [InternalChannel.send,
      workOnPending_zero ⟨ch.buffer, ch.pendingSends ++ [(f, p)], ch.pendingReceives⟩ hcap]
    exact hbuf
  · intro f
    rw [InternalChannel.receive,
      workOnPending_zero ⟨ch.buffer, ch.pendingSends, ch.pendingReceives ++ [f]⟩ hcap]
    exact hbuf

/-- Witness for C1 at a concrete channel: one pending send and one pending
receive on a capacity-0 channel complete in the same step. -/
theorem c1_zero_capacity_rendezvous_witness :
    InternalChannel.workOnPendingOperations ⟨⟨0, []⟩, [(some 1, 7)], [some 2]⟩ =
      ({ buffer := ⟨0, []⟩, pendingSends := [], pendingReceives := [] },
       [.sendCompleted (some 1), .receiveCompleted (some 2) 7]) := by
  have h := (c1_zero_capacity_rendezvous ⟨⟨0, []⟩, [(some 1, 7)], [some 2]⟩ rfl rfl).1
  simpa using h

/-- **C2.** For every `Internal` channel with capacity `C > 0` whose buffer
currently respects the bound: after any `send` or `receive` the buffer holds
at most `C` packets (and the capacity is unchanged); a send arriving when the
buffer is full and no receive is pending stays in the pending-sends queue and
nothing is completed; a receive arriving when the buffer is empty and no send
is pending stays in the pending-receives queue; and when a receive arrives at
a full buffer with a pending send, the receive takes the oldest buffered
packet and the pending send is then moved into the freed slot. -/
theorem c2_buffered_capacity_bound (ch : InternalChannel)
    (hcap : 0 < ch.buffer.capacity)
    (hlen : ch.buffer.packets.length ≤ ch.buffer.capacity) :
    (∀ f p, (ch.send f p).1.buffer.packets.length ≤ ch.buffer.capacity ∧
            (ch.send f p).1.buffer.capacity = ch.buffer.capacity) ∧
    (∀ f, (ch.receive f).1.buffer.packets.length ≤ ch.buffer.capacity ∧
          (ch.receive f).1.buffer.capacity = ch.buffer.capacity) ∧
    (∀ f p, ch.buffer.packets.length = ch.buffer.capacity → ch.pendingReceives = [] →
        ch.send f p = ({ ch with pendingSends := ch.pendingSends ++ [(f, p)] }, [])) ∧
    (∀ f, ch.buffer.packets = [] → ch.pendingSends = [] →
        ch.receive f = ({ ch with pendingReceives := ch.pendingReceives ++ [f] }, [])) ∧
    (∀ f q qs f0 p0, ch.buffer.packets = q :: qs →
        ch.buffer.packets.length = ch.buffer.capacity →
        ch.pendingSends = [(f0, p0)] → ch.pendingReceives = [] →
        ch.receive f = ({ buffer := ⟨ch.buffer.capacity, qs ++ [p0]⟩,
                          pendingSends := [], pendingReceives := [] },
                        [.receiveCompleted f q, .sendCompleted f0])) := by
  obtain ⟨⟨cap, packets⟩, sends, receives⟩ := ch
  simp only at hcap hlen
  refine ⟨?_, ?_, ?_, ?_, ?_⟩
  · intro f p
    exact ⟨(InternalChannel.work_le ⟨⟨cap, packets⟩, sends ++ [(f, p)], receives⟩ hlen).2,
           (InternalChannel.work_le ⟨⟨cap, packets⟩, sends ++ [(f, p)], receives⟩ hlen).1⟩
  · intro f
    exact ⟨(InternalChannel.work_le ⟨⟨cap, packets⟩, sends, receives ++ [f]⟩ hlen).2,
           (InternalChannel.work_le ⟨⟨cap, packets⟩, sends, receives ++ [f]⟩ hlen).1⟩
  · intro f p hfull hrecv
    simp only at hfull hrecv
    subst hrecv
    rw [InternalChannel.send, InternalChannel.workOnPendingOperations,
      if_neg (by simp only []; omega),
      workBufLoop_stuck _ _ (Or.inl (by simp [ChannelBuf.isFull]; omega)) (Or.inr rfl)]
  · intro f hemp hsend
    simp only at hemp hsend
    subst hemp hsend
    rw [InternalChannel.receive, InternalChannel.workOnPendingOperations,
      if_neg (by simp only []; omega),
      workBufLoop_stuck _ _ (Or.inr rfl) (Or.inl rfl)]
  · intro f q qs f0 p0 hpk hfull hsend hrecv
    simp only at hpk hfull hsend hrecv
    subst hpk hsend hrecv
    have hlenq : qs.length + 1 = cap := by simpa using hfull
    have hfull1 : ChannelBuf.isFull ⟨cap, q :: qs⟩ = true := by
      simp [ChannelBuf.isFull]
      omega
    have hfull2 : ChannelBuf.isFull ⟨cap, qs⟩ = false := by
      simp [ChannelBuf.isFull]
      omega
    rw [InternalChannel.receive, InternalChannel.workOnPendingOperations]
    rw [if_neg (by simp only []; omega)]
    simp [workBufLoop, tryPopSend, tryPopReceive, hfull1, hfull2,
      ChannelBuf.isEmpty, ChannelBuf.send]

/-- Witness for C2 at a concrete capacity-1 channel. -/
theorem c2_buffered_capacity_bound_witness :
    (InternalChannel.send ⟨⟨1, []⟩, [], []⟩ (some 0) 5).1.buffer.packets.length ≤ 1 ∧
    (InternalChannel.send ⟨⟨1, [9]⟩, [], []⟩ (some 0) 5 =
      ({ buffer := ⟨1, [9]⟩, pendingSends := [(some 0, 5)], pendingReceives := [] }, [])) :=
  ⟨((c2_buffered_capacity_bound ⟨⟨1, []⟩, [], []⟩ (by decide) (by decide)).1 (some 0) 5).1,
   ((c2_buffered_capacity_bound ⟨⟨1, [9]⟩, [], []⟩ (by decide) (by decide)).2.2.1
      (some 0) 5 rfl rfl)⟩

/-- A send or receive request arriving at a channel (the two `Operation`
kinds routed to `InternalChannel::send` / `InternalChannel::receive`). -/
inductive ChannelOp where
  | send (fiber : Option FiberId) (packet : Packet)
  | receive (fiber : Option FiberId)
  deriving Repr, DecidableEq

/-- Run a sequence of requests against a channel, accumulating the
completion events in chronological order. -/
def runOps : InternalChannel → List ChannelEvent → List ChannelOp →
    InternalChannel × List ChannelEvent
  | ch, w, [] => (ch, w)
  | ch, w, .send f p :: rest =>
      runOps (ch.send f p).1 (w ++ (ch.send f p).2) rest
  | ch, w, .receive f :: rest =>
      runOps (ch.receive f).1 (w ++ (ch.receive f).2) rest

/-- The send requests of a request sequence, in arrival order. -/
def arrivedSends (ops : List ChannelOp) : List (Option FiberId × Packet) :=
  ops.filterMap fun op => match op with
    | .send f p => some (f, p)
    | _ => none

/-- The receive requests of a request sequence, in arrival order. -/
def arrivedReceivers (ops : List ChannelOp) : List (Option FiberId) :=
  ops.filterMap fun op => match op with
    | .receive f => some f
    | _ => none

/-- Conservation through one drain: no packet is created, dropped, reordered
or misattributed by `work_on_pending_operations`. -/
theorem work_conservation (ch : InternalChannel)
    (h0 : ch.buffer.capacity = 0 → ch.buffer.packets = []) :
    (completedReceives ch.workOnPendingOperations.2).map Prod.snd ++
        ch.workOnPendingOperations.1.buffer.packets ++
        ch.workOnPendingOperations.1.pendingSends.map Prod.snd =
      ch.buffer.packets ++ ch.pendingSends.map Prod.snd ∧
    completedSenders ch.workOnPendingOperations.2 ++
        ch.workOnPendingOperations.1.pendingSends.map Prod.fst =
      ch.pendingSends.map Prod.fst ∧
    (completedReceives ch.workOnPendingOperations.2).map Prod.fst ++
        ch.workOnPendingOperations.1.pendingReceives =
      ch.pendingReceives ∧
    ch.workOnPendingOperations.1.buffer.capacity = ch.buffer.capacity ∧
    (ch.workOnPendingOperations.1.buffer.capacity = 0 →
      ch.workOnPendingOperations.1.buffer.packets = []) := by
  obtain ⟨ns, nr, hns, hnr, hb, hc, hp, hs, hr, hes, her⟩ := ch.work_shape h0
  have hXlen : (ch.buffer.packets ++ (ch.pendingSends.take ns).map Prod.snd).length =
      ch.buffer.packets.length + ns := by
    rw [List.length_append, List.length_map, List.length_take]
    omega
  have hsnd : (completedReceives ch.workOnPendingOperations.2).map Prod.snd =
      (ch.buffer.packets ++ (ch.pendingSends.take ns).map Prod.snd).take nr := by
    rw [her]
    apply List.map_snd_zip
    rw [List.length_take, List.length_take, hXlen]
    omega
  have hfst : (completedReceives ch.workOnPendingOperations.2).map Prod.fst =
      ch.pendingReceives.take nr := by
    rw [her]
    apply List.map_fst_zip
    rw [List.length_take, List.length_take, hXlen]
    omega
  refine ⟨?_, ?_, ?_, hc, ?_⟩
  · rw [hsnd, hp, hs, List.take_append_drop, List.append_assoc, ← List.map_append,
      List.take_append_drop]
  · rw [hes, hs, ← List.map_append, List.take_append_drop]
  · rw [hfst, hr, List.take_append_drop]
  · intro hzero
    rw [hc] at hzero
    rw [(workOnPending_zero ch hzero ▸ rfl :
      ch.workOnPendingOperations.1.buffer = ch.buffer)]
    exact h0 hzero

@[simp] theorem arrivedSends_send (f : Option FiberId) (p : Packet) (ops : List ChannelOp) :
    arrivedSends (.send f p :: ops) = (f, p) :: arrivedSends ops := rfl

@[simp] theorem arrivedSends_receive (f : Option FiberId) (ops : List ChannelOp) :
    arrivedSends (.receive f :: ops) = arrivedSends ops := rfl

@[simp] theorem arrivedReceivers_send (f : Option FiberId) (p : Packet) (ops : List ChannelOp) :
    arrivedReceivers (.send f p :: ops) = arrivedReceivers ops := rfl

@[simp] theorem arrivedReceivers_receive (f : Option FiberId) (ops : List ChannelOp) :
    arrivedReceivers (.receive f :: ops) = f :: arrivedReceivers ops := rfl

/-- Events accumulate: running with a non-empty log only prepends the log. -/
theorem runOps_events : ∀ (ops : List ChannelOp) (ch : InternalChannel) (w : List ChannelEvent),
    runOps ch w ops = ((runOps ch [] ops).1, w ++ (runOps ch [] ops).2)
  | [], ch, w => by simp [runOps]
  | .send f p :: rest, ch, w => by
      rw [runOps, runOps, runOps_events rest (ch.send f p).1 (w ++ (ch.send f p).2),
        runOps_events rest (ch.send f p).1 ([] ++ (ch.send f p).2)]
      simp
  | .receive f :: rest, ch, w => by
      rw [runOps, runOps, runOps_events rest (ch.receive f).1 (w ++ (ch.receive f).2),
        runOps_events rest (ch.receive f).1 ([] ++ (ch.receive f).2)]
      simp

/-- Conservation along a whole request sequence started with an empty event
log: the delivered packets followed by the packets still in flight are
exactly the arrived packets, in order; likewise for the completed senders and
receivers. -/
theorem runOps_conservation : ∀ (ops : List ChannelOp) (ch : InternalChannel),
    (ch.buffer.capacity = 0 → ch.buffer.packets = []) →
    ((runOps ch [] ops).1.buffer.capacity = 0 → (runOps ch [] ops).1.buffer.packets = []) ∧
    (completedReceives (runOps ch [] ops).2).map Prod.snd ++
        ((runOps ch [] ops).1.buffer.packets ++
          (runOps ch [] ops).1.pendingSends.map Prod.snd) =
      ch.buffer.packets ++ (ch.pendingSends.map Prod.snd ++ (arrivedSends ops).map Prod.snd) ∧
    completedSenders (runOps ch [] ops).2 ++
        (runOps ch [] ops).1.pendingSends.map Prod.fst =
      ch.pendingSends.map Prod.fst ++ (arrivedSends ops).map Prod.fst ∧
    (completedReceives (runOps ch [] ops).2).map Prod.fst ++
        (runOps ch [] ops).1.pendingReceives =
      ch.pendingReceives ++ arrivedReceivers ops
  | [], ch, h0 => by
      refine ⟨h0, by simp [runOps, arrivedSends], by simp [runOps, arrivedSends],
        by simp [runOps, arrivedReceivers]⟩
  | .send f p :: rest, ch, h0 => by
      obtain ⟨hA, hB, hC, hcap, hz⟩ :=
        work_conservation ⟨ch.buffer, ch.pendingSends ++ [(f, p)], ch.pendingReceives⟩ h0
      obtain ⟨ih0, ihA, ihB, ihC⟩ := runOps_conservation rest (ch.send f p).1 hz
      have hunfold : runOps ch [] (.send f p :: rest) =
          ((runOps (ch.send f p).1 [] rest).1,
            (ch.send f p).2 ++ (runOps (ch.send f p).1 [] rest).2) := by
        rw [runOps, runOps_events rest (ch.send f p).1 ([] ++ (ch.send f p).2)]
        simp
      rw [hunfold]
      refine ⟨ih0, ?_, ?_, ?_⟩
      · have step := congrArg (· ++ (arrivedSends rest).map Prod.snd) hA
        simp only [InternalChannel.send, List.map_append, List.map_cons, List.map_nil,
          List.append_assoc, List.cons_append, List.nil_append] at step ihA ⊢
        simp only [completedReceives_append, List.map_append, List.append_assoc,
          arrivedSends_send, List.map_cons]
        rw [ihA]
        exact step
      · have step := congrArg (· ++ (arrivedSends rest).map Prod.fst) hB
        simp only [InternalChannel.send, List.map_append, List.map_cons, List.map_nil,
          List.append_assoc, List.cons_append, List.nil_append] at step ihB ⊢
        simp only [completedSenders_append, List.append_assoc, arrivedSends_send,
          List.map_cons]
        rw [ihB]
        exact step
      · have step := congrArg (· ++ arrivedReceivers rest) hC
        simp only [InternalChannel.send, List.append_assoc] at step ihC ⊢
        simp only [completedReceives_append, List.map_append, List.append_assoc,
          arrivedReceivers_send]
        rw [ihC]
        exact step
  | .receive f :: rest, ch, h0 => by
      obtain ⟨hA, hB, hC, hcap, hz⟩ :=
        work_conservation ⟨ch.buffer, ch.pendingSends, ch.pendingReceives ++ [f]⟩ h0
      obtain ⟨ih0, ihA, ihB, ihC⟩ := runOps_conservation rest (ch.receive f).1 hz
      have hunfold : runOps ch [] (.receive f :: rest) =
          ((runOps (ch.receive f).1 [] rest).1,
            (ch.receive f).2 ++ (runOps (ch.receive f).1 [] rest).2) := by
        rw [runOps, runOps_events rest (ch.receive f).1 ([] ++ (ch.receive f).2)]
        simp
      rw [hunfold]
      refine ⟨ih0, ?_, ?_, ?_⟩
      · have step := congrArg (· ++ (arrivedSends rest).map Prod.snd) hA
        simp only [InternalChannel.receive, List.append_assoc] at step ihA ⊢
        simp only [completedReceives_append, List.map_append, List.append_assoc,
          arrivedSends_receive]
        rw [ihA]
        exact step
      · have step := congrArg (· ++ (arrivedSends rest).map Prod.fst) hB
        simp only [InternalChannel.receive, List.append_assoc] at step ihB ⊢
        simp only [completedSenders_append, List.append_assoc, arrivedSends_receive]
        rw [ihB]
        exact step
      · have step := congrArg (· ++ arrivedReceivers rest) hC
        simp only [InternalChannel.receive, List.append_assoc, List.cons_append,
          List.nil_append] at step ihC ⊢
        simp only [completedReceives_append, List.map_append, List.append_assoc,
          arrivedReceivers_receive]
        rw [ihC]
        exact step

/-- **C3.** FIFO hand-off on every `Internal` channel (any capacity): over
any sequence of send and receive requests against a fresh channel, sends
complete in arrival order, receives complete in arrival order, and the
`i`-th completed receive is delivered exactly the packet of the `i`-th
arrived send — so if send `s1` arrives before `s2` and receive `r1` before
`r2`, then `s1`'s packet goes to `r1` and `s2`'s to `r2`, and `s2` is never
matched while `s1` is still unmatched. -/
theorem c3_fifo_handoff (cap : Nat) (ops : List ChannelOp) :
    ∃ m k,
      completedSenders (runOps (InternalChannel.create cap) [] ops).2 =
        ((arrivedSends ops).map Prod.fst).take m ∧
      (completedReceives (runOps (InternalChannel.create cap) [] ops).2).map Prod.fst =
        (arrivedReceivers ops).take k ∧
      (completedReceives (runOps (InternalChannel.create cap) [] ops).2).map Prod.snd =
        ((arrivedSends ops).map Prod.snd).take k := by
  obtain ⟨-, hA, hB, hC⟩ := runOps_conservation ops (InternalChannel.create cap)
    (fun _ => rfl)
  simp only [show (InternalChannel.create cap).buffer.packets = [] from rfl,
    show (InternalChannel.create cap).pendingSends = [] from rfl,
    show (InternalChannel.create cap).pendingReceives = [] from rfl,
    List.map_nil, List.nil_append] at hA hB hC
  refine ⟨(completedSenders (runOps (InternalChannel.create cap) [] ops).2).length,
    ((completedReceives (runOps (InternalChannel.create cap) [] ops).2).map Prod.snd).length,
    ?_, ?_, ?_⟩
  · rw [← hB, List.take_left]
  · have hk : ((completedReceives (runOps (InternalChannel.create cap) [] ops).2).map
        Prod.snd).length =
      ((completedReceives (runOps (InternalChannel.create cap) [] ops).2).map
        Prod.fst).length := by
      rw [List.length_map, List.length_map]
    rw [← hC, hk, List.take_left]
  · rw [← hA, List.take_left]

/-! ## Heap value model (`src/compiler/vm/src/heap/object.rs`) -/

/-- Heap addresses (`heap::pointer::Pointer`, an index into the heap). -/
abbrev Pointer := Nat

/-- Opaque stand-ins for types owned by other modules and irrelevant to the
claims: byte-code instructions (`lir::Instruction`), builtin-function tags
(`BuiltinFunction`) and HIR ids (`hir::Id`). -/
abbrev Instruction := Nat

/-- `struct Closure { captured, num_args, body }`. -/
structure Closure where
  captured : List Pointer
  numArgs : Nat
  body : List Instruction
  deriving Repr, DecidableEq

/-- `struct Struct { fields: Vec<(u64, Pointer, Pointer)> }` — a list of
(key hash, key, value) triples kept sorted by hash. -/
structure Struct where
  fields : List (Nat × Pointer × Pointer)
  deriving Repr, DecidableEq

/-- `enum Data` — the tagged value representation.  `Int` holds a `BigInt`
(ℤ here), `Text`/`Symbol` hold strings, `List`/`Struct`/`Closure` hold
pointers into the heap, ports hold a channel id. -/
inductive Data where
  | int (value : Int)
  | text (value : String)
  | symbol (value : String)
  | list (items : List Pointer)
  | struct (s : Struct)
  | hirId (id : Nat)
  | closure (c : Closure)
  | builtin (function : Nat)
  | sendPort (channel : ChannelId)
  | receivePort (channel : ChannelId)
  deriving Repr, DecidableEq

/-- Modelled from the spec: the heap (`heap/mod.rs` is not among the
sources) is an arena of reference-counted objects addressed by `Pointer`;
`create` allocates at a fresh address.  Reference counts play no role in the
claims below, so a heap is the list of the `Data` of its objects, the
address being the index.  Dereferencing an invalid address panics in Rust;
here it yields a junk object. -/
def Heap := List Data

instance : Repr Heap := inferInstanceAs (Repr (List Data))

instance : DecidableEq Heap := inferInstanceAs (DecidableEq (List Data))

/-- `Heap::get` (the `data` field of the object at the address). -/
def Heap.get (h : Heap) (p : Pointer) : Data := List.getD h p (.symbol "")

/-- Modelled from the spec: `Heap::create` allocates at the next free
address and returns it. -/
def Heap.create (h : Heap) (d : Data) : Heap × Pointer := (List.append h [d], List.length h)

/-- Modelled from the spec: `Heap::create_symbol`. -/
def Heap.createSymbol (h : Heap) (s : String) : Heap × Pointer := h.create (.symbol s)

/-- `List::equals` / the pairwise part of `Struct::equals`: both first
compare lengths and then compare element-wise (`zip_eq`), which is exactly
this simultaneous recursion. -/
def listEqualsWith (eq : Pointer → Pointer → Bool) : List Pointer → List Pointer → Bool
  | [], [] => true
  | a :: as, b :: bs => eq a b && listEqualsWith eq as bs
  | _, _ => false

/-- Field-wise part of `Struct::equals`: keys and values of corresponding
fields (in stored order) must be equal. -/
def fieldsEqualsWith (eq : Pointer → Pointer → Bool) :
    List (Nat × Pointer × Pointer) → List (Nat × Pointer × Pointer) → Bool
  | [], [] => true
  | (_, ka, va) :: as, (_, kb, vb) :: bs =>
      eq ka kb && eq va vb && fieldsEqualsWith eq as bs
  | _, _ => false

/-- `Data::equals`, abstracted over the pointer comparison used for
children.  Mirrors the `match` in the source: same-variant comparisons by
content, `Closure` against anything — itself included — is `false`, and
mixed variants are `false`. -/
def dataEqualsWith (eq : Pointer → Pointer → Bool) : Data → Data → Bool
  | .int a, .int b => a == b
  | .text a, .text b => a == b
  | .symbol a, .symbol b => a == b
  | .list a, .list b => listEqualsWith eq a b
  | .struct a, .struct b =>
      a.fields.length == b.fields.length && fieldsEqualsWith eq a.fields b.fields
  | .hirId a, .hirId b => a == b
  | .closure _, .closure _ => false
  | .builtin a, .builtin b => a == b
  | .sendPort a, .sendPort b => a == b
  | .receivePort a, .receivePort b => a == b
  | _, _ => false

/-- `Pointer::equals`: identical addresses are equal without looking at the
heap; otherwise the two objects are compared by content.  The recursion
through the heap terminates in Rust because heaps are acyclic; the fuel
makes it structural, and exhausted fuel falls back to address identity. -/
def pointerEquals (heap : Heap) : Nat → Pointer → Pointer → Bool
  | 0, p, q => p == q
  | fuel + 1, p, q => p == q || dataEqualsWith (pointerEquals heap fuel) (heap.get p) (heap.get q)

/-- `Data::equals` with the heap's pointer comparison at a given fuel. -/
def dataEquals (heap : Heap) (fuel : Nat) : Data → Data → Bool :=
  dataEqualsWith (pointerEquals heap fuel)

/-- Stand-in for Rust's `DefaultHasher` (SipHash): a deterministic function
of the sequence of words written into it.  The claims only depend on the
hash being a function of the hashed content, never on particular values, so
any fixed mixing function is a faithful model.  Kept within `u64` range. -/
def hashMix (l : List Nat) : Nat :=
  (l.foldl (fun acc h => acc * 31 + h + 1) 7) % (2 ^ 64)

/-- Stand-in encoding of a string as the word sequence its bytes feed into
the hasher. -/
def strEncode (s : String) : Nat :=
  s.data.foldl (fun acc c => acc * 53 + c.toNat + 1) 3

/-- Stand-in encoding of a `BigInt` as a word for the hasher. -/
def intEncode (i : Int) : Nat :=
  2 * i.natAbs + (if i < 0 then 1 else 0)

/-- `Data::hash_with_cache`, abstracted over the pointer hash used for
children (each variant writes a tag-distinct word sequence into the hasher;
a `Struct` XOR-combines the full hashes of its keys and values, as in the
source).  The cache of the original is pure memoisation of the deterministic
pointer hash and therefore semantically transparent. -/
def dataHashWith (hp : Pointer → Nat) : Data → Nat
  | .int i => hashMix [0, intEncode i]
  | .text s => hashMix [1, strEncode s]
  | .symbol s => hashMix [2, strEncode s]
  | .list items => hashMix (3 :: items.map hp)
  | .struct st =>
      hashMix [4, st.fields.foldl (fun acc f => acc ^^^ hp f.2.1 ^^^ hp f.2.2) 0]
  | .hirId id => hashMix [5, id]
  | .closure c => hashMix ((6 :: c.captured.map hp) ++ [c.numArgs, hashMix c.body])
  | .builtin b => hashMix [7, b]
  | .sendPort ch => hashMix [8, ch]
  | .receivePort ch => hashMix [9, ch]

/-- `Pointer::hash`: the hash of the object at the address (no identity
component).  Fuel as for `pointerEquals`. -/
def pointerHash (heap : Heap) : Nat → Pointer → Nat
  | 0, _ => 0
  | fuel + 1, p => dataHashWith (pointerHash heap fuel) (heap.get p)

/-- `Data::hash` with the heap's pointer hash at a given fuel. -/
def dataHash (heap : Heap) (fuel : Nat) : Data → Nat :=
  dataHashWith (pointerHash heap fuel)

/-- A closure on the left never content-equals anything. -/
theorem dataEqualsWith_closure_left (eq : Pointer → Pointer → Bool) (c : Closure) (b : Data) :
    dataEqualsWith eq (.closure c) b = false := by
  cases b <;> rfl

/-- A closure on the right never content-equals anything. -/
theorem dataEqualsWith_closure_right (eq : Pointer → Pointer → Bool) (a : Data) (c : Closure) :
    dataEqualsWith eq a (.closure c) = false := by
  cases a <;> rfl

/-- **C9.** Structural equality involving a closure is address identity: for
any two addresses at least one of which holds a `Closure`,
`Pointer::equals` holds iff the addresses are identical; and `Data::equals`
returns `false` for every pair of closures, a closure compared with itself
included. -/
theorem c9_closure_identity_equality (heap : Heap) (fuel : Nat) (p q : Pointer)
    (h : (∃ c, heap.get p = .closure c) ∨ (∃ c, heap.get q = .closure c)) :
    (pointerEquals heap fuel p q = true ↔ p = q) ∧
    (∀ c₁ c₂ : Closure, dataEquals heap fuel (.closure c₁) (.closure c₂) = false) := by
  constructor
  · cases fuel with
    | zero => simp [pointerEquals]
    | succ n =>
      simp only [pointerEquals, Bool.or_eq_true, beq_iff_eq]
      constructor
      · rintro (rfl | hdata)
        · rfl
        · exfalso
          rcases h with ⟨c, hc⟩ | ⟨c, hc⟩
          · rw [hc, dataEqualsWith_closure_left] at hdata
            exact Bool.false_ne_true hdata
          · rw [hc, dataEqualsWith_closure_right] at hdata
            exact Bool.false_ne_true hdata
      · rintro rfl
        exact Or.inl rfl
  · intro c₁ c₂
    rfl

/-- Witness for C9: a heap whose addresses 0 and 1 hold distinct (but
content-identical) closures; they compare unequal, and a closure address
compares equal to itself. -/
theorem c9_closure_identity_equality_witness :
    (pointerEquals [Data.closure ⟨[], 0, []⟩, Data.closure ⟨[], 0, []⟩] 5 0 1 = false) ∧
    (pointerEquals [Data.closure ⟨[], 0, []⟩, Data.closure ⟨[], 0, []⟩] 5 0 0 = true) ∧
    (dataEquals [Data.closure ⟨[], 0, []⟩, Data.closure ⟨[], 0, []⟩] 5
      (.closure ⟨[], 0, []⟩) (.closure ⟨[], 0, []⟩) = false) := by
  refine ⟨?_, ?_, ?_⟩
  · have h := (c9_closure_identity_equality [Data.closure ⟨[], 0, []⟩, Data.closure ⟨[], 0, []⟩]
      5 0 1 (Or.inl ⟨⟨[], 0, []⟩, rfl⟩)).1
    by_contra hne
    have : (0 : Pointer) = 1 := h.mp (by revert hne; cases pointerEquals _ 5 0 1 <;> simp)
    simp at this
  · exact (c9_closure_identity_equality [Data.closure ⟨[], 0, []⟩, Data.closure ⟨[], 0, []⟩]
      5 0 0 (Or.inl ⟨⟨[], 0, []⟩, rfl⟩)).1.mpr rfl
  · exact (c9_closure_identity_equality [Data.closure ⟨[], 0, []⟩, Data.closure ⟨[], 0, []⟩]
      5 0 0 (Or.inl ⟨⟨[], 0, []⟩, rfl⟩)).2 ⟨[], 0, []⟩ ⟨[], 0, []⟩

/-! ### Content equality is symmetric and transitive; equal content hashes
equally -/

theorem listEqualsWith_symm {eq : Pointer → Pointer → Bool}
    (hsymm : ∀ p q, eq p q = true → eq q p = true) :
    ∀ as bs, listEqualsWith eq as bs = true → listEqualsWith eq bs as = true
  | [], [], _ => rfl
  | a :: as, b :: bs, h => by
      simp only [listEqualsWith, Bool.and_eq_true] at h ⊢
      exact ⟨hsymm a b h.1, listEqualsWith_symm hsymm as bs h.2⟩

theorem fieldsEqualsWith_symm {eq : Pointer → Pointer → Bool}
    (hsymm : ∀ p q, eq p q = true → eq q p = true) :
    ∀ as bs, fieldsEqualsWith eq as bs = true → fieldsEqualsWith eq bs as = true
  | [], [], _ => rfl
  | (ha, ka, va) :: as, (hb, kb, vb) :: bs, h => by
      simp only [fieldsEqualsWith, Bool.and_eq_true] at h ⊢
      exact ⟨⟨hsymm ka kb h.1.1, hsymm va vb h.1.2⟩, fieldsEqualsWith_symm hsymm as bs h.2⟩

theorem dataEqualsWith_symm {eq : Pointer → Pointer → Bool}
    (hsymm : ∀ p q, eq p q = true → eq q p = true) (a b : Data)
    (h : dataEqualsWith eq a b = true) : dataEqualsWith eq b a = true := by
  cases a <;> cases b <;> simp only [dataEqualsWith, Bool.and_eq_true, beq_iff_eq] at h ⊢ <;>
    try exact h
  all_goals first
    | exact h.symm
    | exact listEqualsWith_symm hsymm _ _ h
    | exact ⟨h.1.symm, fieldsEqualsWith_symm hsymm _ _ h.2⟩

theorem pointerEquals_symm (heap : Heap) :
    ∀ (fuel : Nat) (p q : Pointer), pointerEquals heap fuel p q = true →
      pointerEquals heap fuel q p = true
  | 0, p, q, h => by
      simp only [pointerEquals, beq_iff_eq] at h ⊢
      exact h.symm
  | fuel + 1, p, q, h => by
      simp only [pointerEquals, Bool.or_eq_true, beq_iff_eq] at h ⊢
      rcases h with h | h
      · exact Or.inl h.symm
      · exact Or.inr (dataEqualsWith_symm (pointerEquals_symm heap fuel) _ _ h)

theorem listEqualsWith_trans {eq : Pointer → Pointer → Bool}
    (htrans : ∀ p q r, eq p q = true → eq q r = true → eq p r = true) :
    ∀ as bs cs, listEqualsWith eq as bs = true → listEqualsWith eq bs cs = true →
      listEqualsWith eq as cs = true
  | [], [], [], _, _ => rfl
  | [], [], _ :: _, _, h => by simp [listEqualsWith] at h
  | a :: as, b :: bs, [], _, h => by simp [listEqualsWith] at h
  | a :: as, b :: bs, c :: cs, h1, h2 => by
      simp only [listEqualsWith, Bool.and_eq_true] at h1 h2 ⊢
      exact ⟨htrans a b c h1.1 h2.1, listEqualsWith_trans htrans as bs cs h1.2 h2.2⟩

theorem fieldsEqualsWith_trans {eq : Pointer → Pointer → Bool}
    (htrans : ∀ p q r, eq p q = true → eq q r = true → eq p r = true) :
    ∀ as bs cs, fieldsEqualsWith eq as bs = true → fieldsEqualsWith eq bs cs = true →
      fieldsEqualsWith eq as cs = true
  | [], [], [], _, _ => rfl
  | [], [], _ :: _, _, h => by simp [fieldsEqualsWith] at h
  | _ :: _, _ :: _, [], _, h => by simp [fieldsEqualsWith] at h
  | (ha, ka, va) :: as, (hb, kb, vb) :: bs, (hc, kc, vc) :: cs, h1, h2 => by
      simp only [fieldsEqualsWith, Bool.and_eq_true] at h1 h2 ⊢
      exact ⟨⟨htrans ka kb kc h1.1.1 h2.1.1, htrans va vb vc h1.1.2 h2.1.2⟩,
        fieldsEqualsWith_trans htrans as bs cs h1.2 h2.2⟩

theorem dataEqualsWith_trans {eq : Pointer → Pointer → Bool}
    (htrans : ∀ p q r, eq p q = true → eq q r = true → eq p r = true) (a b c : Data)
    (h1 : dataEqualsWith eq a b = true) (h2 : dataEqualsWith eq b c = true) :
    dataEqualsWith eq a c = true := by
  cases a <;> cases b <;>
    simp only [dataEqualsWith, Bool.and_eq_true, beq_iff_eq, Bool.false_eq_true] at h1
  all_goals cases c <;>
    simp only [dataEqualsWith, Bool.and_eq_true, beq_iff_eq, Bool.false_eq_true] at h2 ⊢
  · exact h1.trans h2
  · exact h1.trans h2
  · exact h1.trans h2
  · exact listEqualsWith_trans htrans _ _ _ h1 h2
  · exact ⟨h1.1.trans h2.1, fieldsEqualsWith_trans htrans _ _ _ h1.2 h2.2⟩
  · exact h1.trans h2
  · exact h1.trans h2
  · exact h1.trans h2
  · exact h1.trans h2

theorem pointerEquals_trans (heap : Heap) :
    ∀ (fuel : Nat) (p q r : Pointer), pointerEquals heap fuel p q = true →
      pointerEquals heap fuel q r = true → pointerEquals heap fuel p r = true
  | 0, p, q, r, h1, h2 => by
      simp only [pointerEquals, beq_iff_eq] at h1 h2 ⊢
      exact h1.trans h2
  | fuel + 1, p, q, r, h1, h2 => by
      simp only [pointerEquals, Bool.or_eq_true, beq_iff_eq] at h1 h2 ⊢
      rcases h1 with h1 | h1
      · rcases h2 with h2 | h2
        · exact Or.inl (h1.trans h2)
        · subst h1
          exact Or.inr h2
      · rcases h2 with h2 | h2
        · subst h2
          exact Or.inr h1
        · exact Or.inr (dataEqualsWith_trans (pointerEquals_trans heap fuel) _ _ _ h1 h2)

theorem listEqualsWith_hash {eq : Pointer → Pointer → Bool} {hp : Pointer → Nat}
    (hcompat : ∀ p q, eq p q = true → hp p = hp q) :
    ∀ as bs, listEqualsWith eq as bs = true → as.map hp = bs.map hp
  | [], [], _ => rfl
  | [], _ :: _, h => by simp [listEqualsWith] at h
  | _ :: _, [], h => by simp [listEqualsWith] at h
  | a :: as, b :: bs, h => by
      simp only [listEqualsWith, Bool.and_eq_true] at h
      simp only [List.map_cons, hcompat a b h.1, listEqualsWith_hash hcompat as bs h.2]

theorem fieldsEqualsWith_hash {eq : Pointer → Pointer → Bool} {hp : Pointer → Nat}
    (hcompat : ∀ p q, eq p q = true → hp p = hp q) :
    ∀ (as bs : List (Nat × Pointer × Pointer)) (acc : Nat),
      fieldsEqualsWith eq as bs = true →
      as.foldl (fun acc f => acc ^^^ hp f.2.1 ^^^ hp f.2.2) acc =
        bs.foldl (fun acc f => acc ^^^ hp f.2.1 ^^^ hp f.2.2) acc
  | [], [], _, _ => rfl
  | [], _ :: _, _, h => by simp [fieldsEqualsWith] at h
  | _ :: _, [], _, h => by simp [fieldsEqualsWith] at h
  | (ha, ka, va) :: as, (hb, kb, vb) :: bs, acc, h => by
      simp only [fieldsEqualsWith, Bool.and_eq_true] at h
      simp only [List.foldl_cons, hcompat ka kb h.1.1, hcompat va vb h.1.2]
      exact fieldsEqualsWith_hash hcompat as bs _ h.2

theorem dataEqualsWith_hash {eq : Pointer → Pointer → Bool} {hp : Pointer → Nat}
    (hcompat : ∀ p q, eq p q = true → hp p = hp q) (a b : Data)
    (h : dataEqualsWith eq a b = true) : dataHashWith hp a = dataHashWith hp b := by
  cases a <;> cases b <;>
    simp only [dataEqualsWith, Bool.and_eq_true, beq_iff_eq, Bool.false_eq_true] at h
  · rw [dataHashWith, dataHashWith, h]
  · rw [dataHashWith, dataHashWith, h]
  · rw [dataHashWith, dataHashWith, h]
  · rw [dataHashWith, dataHashWith, listEqualsWith_hash hcompat _ _ h]
  · rw [dataHashWith, dataHashWith, fieldsEqualsWith_hash hcompat _ _ 0 h.2]
  · rw [dataHashWith, dataHashWith, h]
  · rw [dataHashWith, dataHashWith, h]
  · rw [dataHashWith, dataHashWith, h]
  · rw [dataHashWith, dataHashWith, h]

theorem pointerEquals_hash (heap : Heap) :
    ∀ (fuel : Nat) (p q : Pointer), pointerEquals heap fuel p q = true →
      pointerHash heap fuel p = pointerHash heap fuel q
  | 0, p, q, _ => rfl
  | fuel + 1, p, q, h => by
      simp only [pointerEquals, Bool.or_eq_true, beq_iff_eq] at h
      rcases h with rfl | h
      · rfl
      · simp only [pointerHash]
        exact dataEqualsWith_hash (pointerEquals_hash heap fuel) _ _ h

/-! ### `Struct::index_of_key` / `insert` / `get` -/

/-- Rust's `partition_point(|(existing_hash, _, _)| *existing_hash < key_hash)`
is a binary search; on hash-sorted fields its result is the length of the
prefix of fields whose hash is below `keyHash`, which this computes
directly. -/
def partitionPoint (fields : List (Nat × Pointer × Pointer)) (keyHash : Nat) : Nat :=
  match fields with
  | [] => 0
  | f :: fs => if f.1 < keyHash then partitionPoint fs keyHash + 1 else 0

/-- The scan over `fields_with_same_hash`: walk the fields from the
partition point while their stored hash equals `keyHash`, returning the
offset of the first whose key content-equals `key`
(`existing_key.equals(heap, key)`). -/
def scanRun (heap : Heap) (fuel : Nat) (key : Pointer) (keyHash : Nat) :
    List (Nat × Pointer × Pointer) → Option Nat
  | [] => none
  | f :: fs =>
      if f.1 == keyHash then
        if pointerEquals heap fuel f.2.1 key then some 0
        else (scanRun heap fuel key keyHash fs).map (· + 1)
      else none

/-- `Struct::index_of_key`: `Ok(index)` of the field holding the key, or
`Err(insertion_index)`. -/
def Struct.indexOfKey (heap : Heap) (fuel : Nat) (st : Struct) (key : Pointer)
    (keyHash : Nat) : Except Nat Nat :=
  match scanRun heap fuel key keyHash
      (st.fields.drop (partitionPoint st.fields keyHash)) with
  | some j => .ok (partitionPoint st.fields keyHash + j)
  | none => .error (partitionPoint st.fields keyHash)

/-- `Struct::insert`: replace the field found by `index_of_key`, or insert a
new field at the returned insertion index. -/
def Struct.insert (heap : Heap) (fuel : Nat) (st : Struct) (key value : Pointer) : Struct :=
  match st.indexOfKey heap fuel key (pointerHash heap fuel key) with
  | .ok index => ⟨st.fields.set index (pointerHash heap fuel key, key, value)⟩
  | .error index => ⟨st.fields.take index ++
      (pointerHash heap fuel key, key, value) :: st.fields.drop index⟩

/-- `Struct::get`: the value of the field found by `index_of_key`, if any. -/
def Struct.get (heap : Heap) (fuel : Nat) (st : Struct) (key : Pointer) : Option Pointer :=
  match st.indexOfKey heap fuel key (pointerHash heap fuel key) with
  | .ok index => (st.fields[index]?).map fun f => f.2.2
  | .error _ => none

/-- The struct invariant: fields are sorted by their stored hash. -/
def FieldsSorted (fields : List (Nat × Pointer × Pointer)) : Prop :=
  List.Pairwise (fun a b => a.1 ≤ b.1) fields

theorem partitionPoint_le (keyHash : Nat) :
    ∀ fields, partitionPoint fields keyHash ≤ fields.length
  | [] => Nat.le_refl 0
  | f :: fs => by
      rw [partitionPoint]
      split
      · simpa using partitionPoint_le keyHash fs
      · simp

theorem take_partitionPoint_lt (keyHash : Nat) :
    ∀ (fields : List (Nat × Pointer × Pointer)),
      ∀ f ∈ fields.take (partitionPoint fields keyHash), f.1 < keyHash
  | [] => by simp
  | f :: fs => by
      rw [partitionPoint]
      split
      · intro g hg
        rw [List.take_succ_cons] at hg
        rcases List.mem_cons.mp hg with rfl | hg
        · assumption
        · exact take_partitionPoint_lt keyHash fs g hg
      · simp

theorem partitionPoint_append_of {keyHash : Nat} {A : List (Nat × Pointer × Pointer)}
    (hA : ∀ f ∈ A, f.1 < keyHash) {x : Nat × Pointer × Pointer} (hx : ¬x.1 < keyHash)
    (B : List (Nat × Pointer × Pointer)) :
    partitionPoint (A ++ x :: B) keyHash = A.length := by
  induction A with
  | nil =>
    rw [List.nil_append, partitionPoint, if_neg hx]
    rfl
  | cons a as ih =>
    rw [List.cons_append, partitionPoint, if_pos (hA a (List.mem_cons_self a as)),
      ih (fun f hf => hA f (List.mem_cons_of_mem a hf))]
    rfl

theorem partitionPoint_set {keyHash : Nat} {x : Nat × Pointer × Pointer}
    (hx : ¬x.1 < keyHash) :
    ∀ (fields : List (Nat × Pointer × Pointer)) (i : Nat),
      partitionPoint fields keyHash ≤ i →
      partitionPoint (fields.set i x) keyHash = partitionPoint fields keyHash
  | [], i, _ => by simp
  | f :: fs, i, hle => by
      rw [partitionPoint] at hle ⊢
      by_cases hf : f.1 < keyHash
      · rw [if_pos hf] at hle ⊢
        obtain ⟨i', rfl⟩ : ∃ i', i = i' + 1 := ⟨i - 1, by omega⟩
        rw [List.set_cons_succ, partitionPoint, if_pos hf,
          partitionPoint_set hx fs i' (by omega)]
      · rw [if_neg hf] at hle ⊢
        cases i with
        | zero =>
          rw [List.set_cons_zero, partitionPoint, if_neg hx]
        | succ i' =>
          rw [List.set_cons_succ, partitionPoint, if_neg hf]

theorem scanRun_length (heap : Heap) (fuel : Nat) (key : Pointer) (keyHash : Nat) :
    ∀ (l : List (Nat × Pointer × Pointer)) (j : Nat),
      scanRun heap fuel key keyHash l = some j → j < l.length
  | [], j, h => by simp [scanRun] at h
  | f :: fs, j, h => by
      rw [scanRun] at h
      split at h
      · split at h
        · simp only [Option.some_inj] at h
          subst h
          simp
        · simp only [Option.map_eq_some'] at h
          obtain ⟨j', hj', rfl⟩ := h
          have := scanRun_length heap fuel key keyHash fs j' hj'
          simp only [List.length_cons]
          omega
      · exact absurd h (by simp)

/-- Replacing the found field by `(keyHash, key, value)` keeps the scan
finding the same index, now probed with any key content-equal to the one
inserted. -/
theorem scanRun_set (heap : Heap) (fuel : Nat) (k k' v : Pointer) (keyHash : Nat)
    (hkk : pointerEquals heap fuel k' k = true) :
    ∀ (l : List (Nat × Pointer × Pointer)) (j : Nat),
      scanRun heap fuel k keyHash l = some j →
      scanRun heap fuel k' keyHash (l.set j (keyHash, k, v)) = some j
  | [], j, h => by simp [scanRun] at h
  | f :: fs, j, h => by
      rw [scanRun] at h
      split at h
      · rename_i hhash
        split at h
        · rename_i hfk
          simp only [Option.some_inj] at h
          subst h
          rw [List.set_cons_zero, scanRun, if_pos (by simp),
            if_pos (pointerEquals_symm heap fuel k' k hkk)]
        · rename_i hfk
          simp only [Option.map_eq_some'] at h
          obtain ⟨j', hj', rfl⟩ := h
          rw [List.set_cons_succ, scanRun, if_pos hhash]
          rw [if_neg ?_, scanRun_set heap fuel k k' v keyHash hkk fs j' hj']
          · rfl
          · intro hcontra
            exact hfk (pointerEquals_trans heap fuel f.2.1 k' k hcontra hkk)
      · exact absurd h (by simp)

/-- **C10.** Content-equal values hash equally (so `Struct`'s hash-indexed
field lookup is sound), and consequently `Struct::get` after
`Struct::insert` of `(k, v)`, probed with any key content-equal to `k`,
returns `v` (on a struct whose fields are hash-sorted, the invariant
`insert` maintains and `partition_point` requires). -/
theorem c10_content_hash_struct_roundtrip :
    (∀ (heap : Heap) (fuel : Nat) (a b : Data),
        dataEquals heap fuel a b = true → dataHash heap fuel a = dataHash heap fuel b) ∧
    (∀ (heap : Heap) (fuel : Nat) (st : Struct) (k v k' : Pointer),
        FieldsSorted st.fields →
        pointerEquals heap fuel k' k = true →
        (st.insert heap fuel k v).get heap fuel k' = some v) := by
  constructor
  · intro heap fuel a b h
    exact dataEqualsWith_hash (pointerEquals_hash heap fuel) a b h
  · intro heap fuel st k v k' hsorted hkk
    have hsym : pointerEquals heap fuel k k' = true := pointerEquals_symm heap fuel k' k hkk
    have hhash : pointerHash heap fuel k' = pointerHash heap fuel k :=
      pointerEquals_hash heap fuel k' k hkk
    have hple := partitionPoint_le (pointerHash heap fuel k) st.fields
    cases hscan : scanRun heap fuel k (pointerHash heap fuel k)
        (st.fields.drop (partitionPoint st.fields (pointerHash heap fuel k))) with
    | none =>
      have hins : st.insert heap fuel k v =
          ⟨st.fields.take (partitionPoint st.fields (pointerHash heap fuel k)) ++
            (pointerHash heap fuel k, k, v) ::
              st.fields.drop (partitionPoint st.fields (pointerHash heap fuel k))⟩ := by
        simp only [Struct.insert, Struct.indexOfKey, hscan]
      have hlenA : (st.fields.take
          (partitionPoint st.fields (pointerHash heap fuel k))).length =
          partitionPoint st.fields (pointerHash heap fuel k) := by
        rw [List.length_take]
        omega
      have hpp2 : partitionPoint
          (st.fields.take (partitionPoint st.fields (pointerHash heap fuel k)) ++
            (pointerHash heap fuel k, k, v) ::
              st.fields.drop (partitionPoint st.fields (pointerHash heap fuel k)))
          (pointerHash heap fuel k) =
          partitionPoint st.fields (pointerHash heap fuel k) := by
        rw [partitionPoint_append_of
          (take_partitionPoint_lt (pointerHash heap fuel k) st.fields) (by simp) _, hlenA]
      have hdrop : (st.fields.take (partitionPoint st.fields (pointerHash heap fuel k)) ++
            (pointerHash heap fuel k, k, v) ::
              st.fields.drop (partitionPoint st.fields (pointerHash heap fuel k))).drop
            (partitionPoint st.fields (pointerHash heap fuel k)) =
          (pointerHash heap fuel k, k, v) ::
            st.fields.drop (partitionPoint st.fields (pointerHash heap fuel k)) := by
        have h1 := List.drop_left
          (st.fields.take (partitionPoint st.fields (pointerHash heap fuel k)))
          ((pointerHash heap fuel k, k, v) ::
            st.fields.drop (partitionPoint st.fields (pointerHash heap fuel k)))
        rwa [hlenA] at h1
      have hscan2 : scanRun heap fuel k' (pointerHash heap fuel k)
          ((pointerHash heap fuel k, k, v) ::
            st.fields.drop (partitionPoint st.fields (pointerHash heap fuel k))) =
          some 0 := by
        rw [scanRun, if_pos (by simp), if_pos hsym]
      have hget : (st.fields.take (partitionPoint st.fields (pointerHash heap fuel k)) ++
            (pointerHash heap fuel k, k, v) ::
              st.fields.drop (partitionPoint st.fields (pointerHash heap fuel k)))[
            partitionPoint st.fields (pointerHash heap fuel k)]? =
          some (pointerHash heap fuel k, k, v) := by
        have h1 := @List.getElem?_append_right _
          (st.fields.take (partitionPoint st.fields (pointerHash heap fuel k)))
          ((pointerHash heap fuel k, k, v) ::
            st.fields.drop (partitionPoint st.fields (pointerHash heap fuel k)))
          (partitionPoint st.fields (pointerHash heap fuel k)) (by rw [hlenA])
        rw [hlenA, Nat.sub_self] at h1
        rw [h1, List.getElem?_cons_zero]
      rw [hins, Struct.get, Struct.indexOfKey, hhash]
      simp only [hpp2, hdrop, hscan2, Nat.add_zero, hget, Option.map_some']
    | some j =>
      have hjlt := scanRun_length heap fuel k (pointerHash heap fuel k) _ j hscan
      rw [List.length_drop] at hjlt
      have hilt : partitionPoint st.fields (pointerHash heap fuel k) + j <
          st.fields.length := by omega
      have hins : st.insert heap fuel k v =
          ⟨st.fields.set (partitionPoint st.fields (pointerHash heap fuel k) + j)
            (pointerHash heap fuel k, k, v)⟩ := by
        simp only [Struct.insert, Struct.indexOfKey, hscan]
      have hpp2 : partitionPoint
          (st.fields.set (partitionPoint st.fields (pointerHash heap fuel k) + j)
            (pointerHash heap fuel k, k, v)) (pointerHash heap fuel k) =
          partitionPoint st.fields (pointerHash heap fuel k) :=
        partitionPoint_set (by simp) st.fields _ (Nat.le_add_right _ _)
      have hdrop2 : (st.fields.set (partitionPoint st.fields (pointerHash heap fuel k) + j)
            (pointerHash heap fuel k, k, v)).drop
            (partitionPoint st.fields (pointerHash heap fuel k)) =
          (st.fields.drop (partitionPoint st.fields (pointerHash heap fuel k))).set j
            (pointerHash heap fuel k, k, v) := by
        rw [List.drop_set, if_neg (by omega), Nat.add_sub_cancel_left]
      have hscan2 := scanRun_set heap fuel k k' v (pointerHash heap fuel k) hkk _ j hscan
      rw [hins, Struct.get, Struct.indexOfKey, hhash]
      simp only [hpp2, hdrop2, hscan2]
      rw [List.getElem?_set_self hilt]
      rfl

/-- Witness for C10: two content-equal one-element lists hash equally, and a
lookup through a content-equal (but distinct) symbol key finds the inserted
value. -/
theorem c10_content_hash_struct_roundtrip_witness :
    dataHash [Data.int 1, Data.int 1] 1 (.list [0]) =
      dataHash [Data.int 1, Data.int 1] 1 (.list [1]) ∧
    Struct.get [Data.symbol "a", Data.symbol "a"] 1
      (Struct.insert [Data.symbol "a", Data.symbol "a"] 1 ⟨[]⟩ 0 5) 1 = some 5 :=
  ⟨c10_content_hash_struct_roundtrip.1 [Data.int 1, Data.int 1] 1 (.list [0]) (.list [1])
      (by decide),
   c10_content_hash_struct_roundtrip.2 [Data.symbol "a", Data.symbol "a"] 1 ⟨[]⟩ 0 5 1
      List.Pairwise.nil (by decide)⟩

/-! ## Fiber tree / scheduler (`src/compiler/src/vm/mod.rs`, `Vm`) -/

/-- `fiber::Status` (declared in `fiber.rs`, used by `mod.rs`): why a fiber
is or is not runnable. -/
inductive FiberStatus where
  | running
  | creatingChannel (capacity : Nat)
  | sending (channel : ChannelId) (packet : Packet)
  | receiving (channel : ChannelId)
  | inParallelScope (body : Pointer) (returnChannel : ChannelId)
  | done
  | panicked (reason : String)
  deriving Repr, DecidableEq

/-- Modelled from the spec: `Fiber` (`fiber.rs` is not among the sources)
owns a heap, stacks and a status; `Fiber::new_for_running_closure` sets it
up, status `Running`, to run the closure applied to the arguments.  Only the
fields the claims observe are kept. -/
structure Fiber where
  status : FiberStatus
  heap : Heap
  closure : Pointer
  arguments : List Pointer
  deriving Repr, DecidableEq

/-- Modelled from the spec: `Fiber::new_for_running_closure`. -/
def Fiber.newForRunningClosure (heap : Heap) (closure : Pointer)
    (arguments : List Pointer) : Fiber :=
  ⟨.running, heap, closure, arguments⟩

/-- `enum FiberTree`. -/
inductive FiberTree where
  | singleFiber (fiber : Fiber) (parentNursery : Option ChannelId)
  | parallelSection (pausedTree : FiberTree) (nursery : ChannelId)
  deriving Repr, DecidableEq

/-- `struct Child { fiber, return_channel }`. -/
structure Child where
  fiber : FiberId
  returnChannel : ChannelId
  deriving Repr, DecidableEq

/-- `enum Channel`. -/
inductive Channel where
  | internal (ch : InternalChannel)
  | external (id : ChannelId)
  | nursery (parent : FiberId) (children : List Child)
  deriving Repr, DecidableEq

/-- `Channel::as_nursery_children`. -/
def Channel.asNurseryChildren : Channel → Option (List Child)
  | .nursery _ children => some children
  | _ => none

/-- `struct Vm` — the fiber forest and the channel table (the `HashMap`s
become association lists). -/
structure Vm where
  fibers : List (FiberId × FiberTree)
  rootFiber : FiberId
  channels : List (ChannelId × Channel)
  fiberIdGenerator : Nat
  channelIdGenerator : Nat
  deriving Repr, DecidableEq

/-- `enum Status` — the aggregate status reported by `Vm::status`. -/
inductive Status where
  | running
  | waitingForOperations
  | done
  | panicked (reason : String)
  deriving Repr, DecidableEq

/-- The `for child in children` loop of `Vm::status_of` on a
`ParallelSection`: return on the first child whose status is `Running` or
`Panicked`, skip `WaitingForOperations` and `Done` children, and fall
through to `WaitingForOperations`. -/
def scanChildren (f : FiberId → Option Status) : List Child → Option Status
  | [] => some .waitingForOperations
  | c :: rest =>
      match f c.fiber with
      | none => none
      | some .running => some .running
      | some (.panicked reason) => some (.panicked reason)
      | some _ => scanChildren f rest

/-- `Vm::status_of`.  The recursion through the fiber forest is finite in
the source; the fuel makes it structural.  `none` models the panics of the
source (`self.fibers[&fiber]` on a missing id, the `unreachable!()` arms,
`as_nursery_children().unwrap()`), plus fuel exhaustion. -/
def Vm.statusOf (vm : Vm) : Nat → FiberId → Option Status
  | 0, _ => none
  | fuel + 1, fiberId =>
      match vm.fibers.lookup fiberId with
      | none => none
      | some (.singleFiber fiber _) =>
          match fiber.status with
          | .running => some .running
          | .sending _ _ => some .waitingForOperations
          | .receiving _ => some .waitingForOperations
          | .creatingChannel _ => none
          | .inParallelScope _ _ => none
          | .done => some .done
          | .panicked reason => some (.panicked reason)
      | some (.parallelSection _ nursery) =>
          match vm.channels.lookup nursery with
          | none => none
          | some ch =>
              match ch.asNurseryChildren with
              | none => none
              | some children =>
                  if children.isEmpty then some .done
                  else scanChildren (vm.statusOf fuel) children

/-- `Vm::status`. -/
def Vm.status (vm : Vm) (fuel : Nat) : Option Status :=
  vm.statusOf fuel vm.rootFiber

/-- When no child is Running, a panicked child makes the scan return
`Panicked` (the statuses of all children must be available, i.e. none of the
lookups panics). -/
theorem scanChildren_panicked (f : FiberId → Option Status) :
    ∀ children : List Child,
      (∀ c ∈ children, f c.fiber ≠ some .running) →
      (∀ c ∈ children, f c.fiber ≠ none) →
      (∃ c ∈ children, ∃ r, f c.fiber = some (.panicked r)) →
      ∃ r, scanChildren f children = some (.panicked r)
  | [], _, _, hpan => by simp at hpan
  | c :: rest, hnorun, hsome, hpan => by
      rw [scanChildren]
      cases hc : f c.fiber with
      | none => exact absurd hc (hsome c (List.mem_cons_self c rest))
      | some s =>
        cases s with
        | running => exact absurd hc (hnorun c (List.mem_cons_self c rest))
        | panicked r => exact ⟨r, rfl⟩
        | waitingForOperations =>
          refine scanChildren_panicked f rest
            (fun d hd => hnorun d (List.mem_cons_of_mem c hd))
            (fun d hd => hsome d (List.mem_cons_of_mem c hd)) ?_
          obtain ⟨d, hd, r, hr⟩ := hpan
          rcases List.mem_cons.mp hd with rfl | hd
          · rw [hc] at hr
            exact absurd hr (by simp)
          · exact ⟨d, hd, r, hr⟩
        | done =>
          refine scanChildren_panicked f rest
            (fun d hd => hnorun d (List.mem_cons_of_mem c hd))
            (fun d hd => hsome d (List.mem_cons_of_mem c hd)) ?_
          obtain ⟨d, hd, r, hr⟩ := hpan
          rcases List.mem_cons.mp hd with rfl | hd
          · rw [hc] at hr
            exact absurd hr (by simp)
          · exact ⟨d, hd, r, hr⟩

/-- The scan never reports `Done`. -/
theorem scanChildren_ne_done (f : FiberId → Option Status) :
    ∀ children : List Child, scanChildren f children ≠ some .done
  | [] => by simp [scanChildren]
  | c :: rest => by
      rw [scanChildren]
      cases f c.fiber with
      | none => simp
      | some s =>
        cases s with
        | running => simp
        | panicked r => simp
        | waitingForOperations => exact scanChildren_ne_done f rest
        | done => exact scanChildren_ne_done f rest

/-- A concrete VM refuting C4 as stated: a parallel section whose first
child is Running and whose second child has Panicked. -/
def vmRunningBeatsPanic : Vm :=
  { fibers := [(0, .parallelSection (.singleFiber ⟨.inParallelScope 0 0, [], 0, []⟩ none) 0),
               (1, .singleFiber ⟨.running, [], 0, []⟩ (some 0)),
               (2, .singleFiber ⟨.panicked "boom", [], 0, []⟩ (some 0))],
    rootFiber := 0,
    channels := [(0, .nursery 0 [⟨1, 5⟩, ⟨2, 6⟩])],
    fiberIdGenerator := 3,
    channelIdGenerator := 1 }

/-- **C4, counterexample.** In `vmRunningBeatsPanic` the child fiber 2 has
panicked, yet `status_of` reports the parallel section as `Running`, not
`Panicked`: the scan returns on the first Running child before looking at
later panicked children, so Panicked does not dominate Running and a
parallel section's status can be non-Panicked while a child panicked. -/
theorem c4_counterexample_running_beats_panic :
    Vm.statusOf vmRunningBeatsPanic 2 2 = some (.panicked "boom") ∧
    Vm.statusOf vmRunningBeatsPanic 3 0 = some .running ∧
    Vm.statusOf vmRunningBeatsPanic 3 0 ≠ some (.panicked "boom") :=
  ⟨rfl, rfl, by decide⟩

/-- **C4, amended.** For a `ParallelSection` node: the aggregate status is
`Done` iff the nursery's children list is empty (every spawned child reached
`Done` and was torn down); otherwise the aggregate is the scan of the
children in nursery order, which returns the status of the first child that
is `Running` or `Panicked`; consequently `Panicked` dominates
`WaitingForOperations` and `Done` — if no child is Running and some child
panicked, the aggregate is `Panicked` — but, as the counterexample shows, an
earlier Running child dominates a later Panicked one. -/
theorem c4_parallel_status_amended (vm : Vm) (fuel : Nat) (fiberId : FiberId)
    (paused : FiberTree) (nursery : ChannelId) (parent : FiberId) (children : List Child)
    (hf : vm.fibers.lookup fiberId = some (.parallelSection paused nursery))
    (hc : vm.channels.lookup nursery = some (.nursery parent children)) :
    (vm.statusOf (fuel + 1) fiberId = some .done ↔ children = []) ∧
    (children ≠ [] →
      vm.statusOf (fuel + 1) fiberId = scanChildren (vm.statusOf fuel) children) ∧
    ((∀ c ∈ children, vm.statusOf fuel c.fiber ≠ some .running) →
      (∀ c ∈ children, vm.statusOf fuel c.fiber ≠ none) →
      (∃ c ∈ children, ∃ r, vm.statusOf fuel c.fiber = some (.panicked r)) →
      ∃ r, vm.statusOf (fuel + 1) fiberId = some (.panicked r)) := by
  have hstat : vm.statusOf (fuel + 1) fiberId =
      if children.isEmpty then some .done
      else scanChildren (vm.statusOf fuel) children := by
    simp only [Vm.statusOf, hf, hc, Channel.asNurseryChildren]
  refine ⟨?_, ?_, ?_⟩
  · rw [hstat]
    cases children with
    | nil => simp
    | cons c rest =>
      rw [if_neg (by simp)]
      constructor
      · intro h
        exact absurd h (scanChildren_ne_done _ _)
      · intro h
        exact absurd h (by simp)
  · intro hne
    rw [hstat, if_neg (by simpa using hne)]
  · intro hnorun hsome hpan
    obtain ⟨r, hr⟩ := scanChildren_panicked (vm.statusOf fuel) children hnorun hsome hpan
    refine ⟨r, ?_⟩
    rw [hstat, if_neg ?_, hr]
    obtain ⟨c, hcmem, -⟩ := hpan
    cases children <;> simp_all

/-- Witness for the amended C4: a parallel section with one waiting child
and one panicked child aggregates to `Panicked`. -/
def vmPanicDominatesWaiting : Vm :=
  { fibers := [(0, .parallelSection (.singleFiber ⟨.inParallelScope 0 0, [], 0, []⟩ none) 0),
               (1, .singleFiber ⟨.sending 4 0, [], 0, []⟩ (some 0)),
               (2, .singleFiber ⟨.panicked "boom", [], 0, []⟩ (some 0))],
    rootFiber := 0,
    channels := [(0, .nursery 0 [⟨1, 5⟩, ⟨2, 6⟩])],
    fiberIdGenerator := 3,
    channelIdGenerator := 1 }

theorem c4_parallel_status_amended_witness :
    (Vm.statusOf vmPanicDominatesWaiting 2 0 = some .done ↔
      ([⟨1, 5⟩, ⟨2, 6⟩] : List Child) = []) ∧
    (∃ r, Vm.statusOf vmPanicDominatesWaiting 2 0 = some (.panicked r)) := by
  have h := c4_parallel_status_amended vmPanicDominatesWaiting 1 0
    (.singleFiber ⟨.inParallelScope 0 0, [], 0, []⟩ none) 0 0 [⟨1, 5⟩, ⟨2, 6⟩] rfl rfl
  exact ⟨h.1, h.2.2 (by decide) (by decide) ⟨⟨2, 6⟩, by simp, "boom", rfl⟩⟩

/-! ## Nursery spawn (`Vm::send_to_channel`, `Vm::parse_spawn_packet`) -/

/-- `channel::Packet` as it reaches `parse_spawn_packet`: a heap plus the
address of the root value. -/
structure HeapPacket where
  heap : Heap
  value : Pointer
  deriving Repr, DecidableEq

/-- `TryInto<Struct> for Data` (`impl_data_try_into_type!`), with `.ok()`:
`Some` on the matching variant. -/
def Data.asStruct : Data → Option Struct
  | .struct s => some s
  | _ => none

/-- `TryInto<Closure> for Data`, with `.ok()`. -/
def Data.asClosure : Data → Option Closure
  | .closure c => some c
  | _ => none

/-- `TryInto<SendPort> for Data`, with `.ok()` (a `SendPort` is just its
channel id). -/
def Data.asSendPort : Data → Option ChannelId
  | .sendPort ch => some ch
  | _ => none

/-- `Vm::parse_spawn_packet`: the payload must be a `Struct`; a fresh
`"Closure"` symbol is allocated and looked up in it, the found value must be
a closure taking no arguments; a fresh `"ReturnChannel"` symbol is allocated
and looked up, the found value must be a `SendPort`.  Returns the (grown)
heap, the closure address and the return channel id; `none` (the Rust `?`)
on any mismatch. -/
def parseSpawnPacket (fuel : Nat) (packet : HeapPacket) :
    Option (Heap × Pointer × ChannelId) := do
  let arguments ← (Heap.get packet.heap packet.value).asStruct
  let t1 := packet.heap.createSymbol "Closure"
  let closureAddress ← arguments.get t1.1 fuel t1.2
  let closure ← (Heap.get t1.1 closureAddress).asClosure
  if closure.numArgs > 0 then none
  else do
    let t2 := Heap.createSymbol t1.1 "ReturnChannel"
    let returnChannelAddress ← arguments.get t2.1 fuel t2.2
    let channel ← (Heap.get t2.1 returnChannelAddress).asSendPort
    some (t2.1, closureAddress, channel)

/-- Update the entry of an association-list table (the in-place mutation of
a `HashMap` entry). -/
def updateAssoc {β : Type} (l : List (Nat × β)) (key : Nat) (val : β) : List (Nat × β) :=
  l.map fun kv => if kv.1 == key then (kv.1, val) else kv

/-- Modelled from the spec: `InternalChannel::complete_send` resumes the
performing fiber by calling `Fiber::complete_send` on it (`fiber.rs` is not
among the sources; per §4.2 completion of a send simply unblocks the fiber,
i.e. sets it back to Running).  `None` performing fiber: no-op.  A missing
or non-single-fiber entry makes the source panic (`unwrap`), modelled as
`none`. -/
def completeSendFibers (fibers : List (FiberId × FiberTree)) :
    Option FiberId → Option (List (FiberId × FiberTree))
  | none => some fibers
  | some fiberId =>
      match fibers.lookup fiberId with
      | some (.singleFiber fiber parentNursery) =>
          some (updateAssoc fibers fiberId
            (.singleFiber { fiber with status := .running } parentNursery))
      | _ => none

/-- The `Channel::Nursery` arm of `Vm::send_to_channel`: parse the packet as
a spawn request — a process-fatal `panic!` (`none`) if malformed — then
spawn a fresh fiber running the closure with no arguments, record it in the
nursery's children together with its return channel, and complete the
sender. -/
def Vm.sendToNursery (vm : Vm) (fuel : Nat) (performingFiber : Option FiberId)
    (channel : ChannelId) (packet : HeapPacket) : Option Vm :=
  match vm.channels.lookup channel with
  | some (.nursery parent children) =>
      match parseSpawnPacket fuel packet with
      | none => none
      | some (heap, closureToSpawn, returnChannel) =>
          let fiberId := vm.fiberIdGenerator
          match completeSendFibers
              (vm.fibers ++ [(fiberId,
                .singleFiber (Fiber.newForRunningClosure heap closureToSpawn [])
                  (some channel))])
              performingFiber with
          | none => none
          | some fibers =>
              some { vm with
                fibers := fibers,
                channels := updateAssoc vm.channels channel
                  (.nursery parent (children ++ [⟨fiberId, returnChannel⟩])),
                fiberIdGenerator := vm.fiberIdGenerator + 1 }
  | _ => none

theorem Data.asStruct_eq_some {d : Data} {s : Struct} :
    d.asStruct = some s ↔ d = .struct s := by
  cases d <;> simp [Data.asStruct]

theorem Data.asClosure_eq_some {d : Data} {c : Closure} :
    d.asClosure = some c ↔ d = .closure c := by
  cases d <;> simp [Data.asClosure]

theorem Data.asSendPort_eq_some {d : Data} {ch : ChannelId} :
    d.asSendPort = some ch ↔ d = .sendPort ch := by
  cases d <;> simp [Data.asSendPort]

/-- **C5.** A packet sent to a `Nursery` channel is a spawn request: when
the payload decodes — a `Struct` holding, under a fresh `"Closure"` symbol
key, a closure with `num_args = 0` and, under `"ReturnChannel"`, a
`SendPort` — the VM spawns a new child fiber running that closure with no
arguments, records it in the nursery's children with the packet's return
channel, and completes the sender; the decode succeeds exactly on payloads
of that shape, and any other payload is a fatal VM error (`panic!`, modelled
`none`: no successor VM state), not a recoverable channel error. -/
theorem c5_nursery_spawn (vm : Vm) (fuel : Nat) (performingFiber : Option FiberId)
    (channelId : ChannelId) (parent : FiberId) (children : List Child) (packet : HeapPacket)
    (hch : vm.channels.lookup channelId = some (.nursery parent children)) :
    (parseSpawnPacket fuel packet = none →
      vm.sendToNursery fuel performingFiber channelId packet = none) ∧
    (∀ heap2 caddr rc,
      parseSpawnPacket fuel packet = some (heap2, caddr, rc) ↔
        ∃ st cl raddr,
          Heap.get packet.heap packet.value = .struct st ∧
          Struct.get (List.append packet.heap [Data.symbol "Closure"]) fuel st
            (List.length packet.heap) = some caddr ∧
          Heap.get (List.append packet.heap [Data.symbol "Closure"]) caddr = .closure cl ∧
          cl.numArgs = 0 ∧
          heap2 = List.append (List.append packet.heap [Data.symbol "Closure"])
            [Data.symbol "ReturnChannel"] ∧
          Struct.get heap2 fuel st
            (List.length (List.append packet.heap [Data.symbol "Closure"])) = some raddr ∧
          Heap.get heap2 raddr = .sendPort rc) ∧
    (∀ heap2 caddr rc, parseSpawnPacket fuel packet = some (heap2, caddr, rc) →
      ∀ fibers, completeSendFibers
          (vm.fibers ++ [(vm.fiberIdGenerator,
            .singleFiber (Fiber.newForRunningClosure heap2 caddr []) (some channelId))])
          performingFiber = some fibers →
        vm.sendToNursery fuel performingFiber channelId packet =
          some { vm with
            fibers := fibers,
            channels := updateAssoc vm.channels channelId
              (.nursery parent (children ++ [⟨vm.fiberIdGenerator, rc⟩])),
            fiberIdGenerator := vm.fiberIdGenerator + 1 }) := by
  refine ⟨?_, ?_, ?_⟩
  · intro hnone
    simp only [Vm.sendToNursery, hch, hnone]
  · intro heap2 caddr rc
    constructor
    · intro h
      rw [parseSpawnPacket] at h
      simp only [Heap.createSymbol, Heap.create, Option.bind_eq_bind, Option.bind_eq_some,
        Data.asStruct_eq_some, Data.asClosure_eq_some, Data.asSendPort_eq_some] at h
      obtain ⟨st, hv, ca, hg1, cl, hc1, hif⟩ := h
      by_cases hn : cl.numArgs > 0
      · rw [if_pos hn] at hif
        exact absurd hif (by simp)
      · rw [if_neg hn] at hif
        simp only [Option.bind_eq_bind, Option.bind_eq_some, Data.asSendPort_eq_some] at hif
        obtain ⟨ra, hg2, ch, hp, heq⟩ := hif
        simp only [Option.some_inj, Prod.mk.injEq] at heq
        obtain ⟨h1, h2, h3⟩ := heq
        subst h1
        subst h2
        subst h3
        exact ⟨st, cl, ra, hv, hg1, hc1, by omega, rfl, hg2, hp⟩
    · rintro ⟨st, cl, raddr, hv, hg1, hc1, hn0, rfl, hg2, hp⟩
      rw [parseSpawnPacket]
      simp only [Heap.createSymbol, Heap.create, Option.bind_eq_bind, hv, Data.asStruct,
        Option.some_bind, hg1, hc1, Data.asClosure, hn0, gt_iff_lt, lt_self_iff_false,
        if_false, hg2, hp, Data.asSendPort]
  · intro heap2 caddr rc hparse fibers hcomplete
    simp only [Vm.sendToNursery, hch, hparse, hcomplete]

/-- Witness for C5 at a concrete VM with one (empty) nursery: an `Int`
payload is not a spawn request, and the send is fatal. -/
theorem c5_nursery_spawn_witness :
    Vm.sendToNursery ⟨[], 0, [(0, .nursery 0 [])], 1, 1⟩ 1 none 0 ⟨[Data.int 3], 0⟩ =
      none :=
  (c5_nursery_spawn ⟨[], 0, [(0, .nursery 0 [])], 1, 1⟩ 1 none 0 0 [] ⟨[Data.int 3], 0⟩
    rfl).1 rfl

/-! ## Byte-code interpreter (`src/compiler/src/vm/vm.rs`) -/

/-- `lir::Instruction` of this VM generation (the enum is declared in
`lir.rs`, which is not among the sources; every variant and its payload is
determined by the exhaustive `match` in `Vm::run_instruction`).  Payload
types owned by other modules (`hir::Id`, `BuiltinFunction`, the compile-time
error) are opaque numbers. -/
inductive OldInstruction where
  | createInt (value : Int)
  | createText (value : String)
  | createSymbol (value : String)
  | createStruct (numEntries : Nat)
  | createClosure (numArgs : Nat) (body : List OldInstruction)
  | createBuiltin (builtin : Nat)
  | popMultipleBelowTop (n : Nat)
  | pushFromStack (offset : Nat)
  | call (numArgs : Nat)
  | needs
  | ret
  | registerFuzzableClosure (id : Nat)
  | traceValueEvaluated (id : Nat)
  | traceCallStarts (id : Nat) (numArgs : Nat)
  | traceCallEnds
  | traceNeedsStarts (id : Nat)
  | traceNeedsEnds
  | error (error : Nat)
  deriving Repr

/-- Modelled from the spec: `Value` (`value.rs` is not among the sources) —
the exported, heap-independent form of a value.  `Value::nothing()` is the
unit symbol `Nothing`.  A Rust `HashMap` struct is modelled as its entries
in insertion order. -/
inductive OldValue where
  | int (value : Int)
  | text (value : String)
  | symbol (value : String)
  | struct (entries : List (OldValue × OldValue))
  | closure (captured : List OldValue) (numArgs : Nat) (body : List OldInstruction)
  | builtin (builtin : Nat)
  deriving Repr

/-- `Value::nothing()`. -/
def OldValue.nothing : OldValue := .symbol "Nothing"

/-- Modelled from the spec: `ObjectData` (`heap.rs` is not among the
sources) — the heap-resident form, containers holding addresses. -/
inductive OldData where
  | int (value : Int)
  | text (value : String)
  | symbol (value : String)
  | struct (entries : List (Nat × Nat))
  | closure (captured : List Nat) (numArgs : Nat) (body : List OldInstruction)
  | builtin (builtin : Nat)
  deriving Repr

/-- Modelled from the spec: the old heap is an arena of reference-counted
objects addressed by index.  None of the claims observes reference counts,
so objects are just their `ObjectData` and `dup`/`drop` do not change the
model (freeing and address reuse are likewise unobserved). -/
def OldHeap := List OldData

instance : Repr OldHeap := inferInstanceAs (Repr (List OldData))

/-- `Heap::create`: allocate at the next free address. -/
def OldHeap.create (h : OldHeap) (d : OldData) : OldHeap × Nat :=
  (List.append h [d], List.length h)

/-- `Heap::get(address).data`; `none` where Rust panics on an invalid
address. -/
def OldHeap.getData (h : OldHeap) (address : Nat) : Option OldData :=
  List.get? h address

/-- `Heap::dup` (reference-count increment — not observable here). -/
def OldHeap.dup (h : OldHeap) (_address : Nat) : OldHeap := h

/-- `Heap::drop` (reference-count decrement — not observable here). -/
def OldHeap.dropRef (h : OldHeap) (_address : Nat) : OldHeap := h

mutual

/-- Modelled from the spec: `Heap::import` recursively allocates a `Value`,
children before parents, and returns the root address. -/
def importVal : OldHeap → OldValue → OldHeap × Nat
  | h, .int i => h.create (.int i)
  | h, .text t => h.create (.text t)
  | h, .symbol s => h.create (.symbol s)
  | h, .struct entries =>
      let r := importPairs h entries
      r.1.create (.struct r.2)
  | h, .closure captured numArgs body =>
      let r := importList h captured
      r.1.create (.closure r.2 numArgs body)
  | h, .builtin b => h.create (.builtin b)

/-- Import a list of values, left to right. -/
def importList : OldHeap → List OldValue → OldHeap × List Nat
  | h, [] => (h, [])
  | h, v :: vs =>
      let r1 := importVal h v
      let r2 := importList r1.1 vs
      (r2.1, r1.2 :: r2.2)

/-- Import a list of key/value pairs, keys before values, left to right. -/
def importPairs : OldHeap → List (OldValue × OldValue) → OldHeap × List (Nat × Nat)
  | h, [] => (h, [])
  | h, (k, v) :: kvs =>
      let rk := importVal h k
      let rv := importVal rk.1 v
      let rr := importPairs rv.1 kvs
      (rr.1, (rk.2, rv.2) :: rr.2)

end

/-- Modelled from the spec: `Heap::export_without_dropping` reads a value
back out of the heap.  The recursion is bounded by `fuel`; exhausted fuel or
an invalid address yields the junk symbol `""`. -/
def exportVal (h : OldHeap) : Nat → Nat → OldValue
  | 0, _ => .symbol ""
  | fuel + 1, address =>
      match h.getData address with
      | none => .symbol ""
      | some (.int i) => .int i
      | some (.text t) => .text t
      | some (.symbol s) => .symbol s
      | some (.struct entries) =>
          .struct (entries.map fun kv => (exportVal h fuel kv.1, exportVal h fuel kv.2))
      | some (.closure captured numArgs body) =>
          .closure (captured.map (exportVal h fuel)) numArgs body
      | some (.builtin b) => .builtin b

/-- `Heap::export_without_dropping`.  In this VM objects are always created
after their children (the arena is append-only), so every child sits at a
strictly smaller address and `address + 1` bounds the value's depth. -/
def OldHeap.exportWithoutDropping (h : OldHeap) (address : Nat) : OldValue :=
  exportVal h (address + 1) address

/-- `struct ByteCodePointer { closure, instruction }`. -/
structure ByteCodePointer where
  closure : Nat
  instruction : Nat
  deriving Repr, DecidableEq

/-- `ByteCodePointer::null_pointer()`. -/
def ByteCodePointer.nullPointer : ByteCodePointer := ⟨0, 0⟩

/-- `enum Status` of this VM generation. -/
inductive OldStatus where
  | running
  | done (value : OldValue)
  | panicked (value : OldValue)
  deriving Repr

def OldStatus.isRunning : OldStatus → Bool
  | .running => true
  | _ => false

/-- `tracer::TraceEntry` (the tracer records exported copies of the traced
values). -/
inductive TraceEntry where
  | valueEvaluated (id : Nat) (value : OldValue)
  | callStarted (id : Nat) (closure : OldValue) (args : List OldValue)
  | callEnded (returnValue : OldValue)
  | needsStarted (id : Nat) (condition : OldValue) (message : OldValue)
  | needsEnded
  deriving Repr

/-- `struct Vm` of `vm.rs`.  The data stack is kept top-first (Rust pushes
and pops at the back of its `Vec`; index `len - 1 - offset` from the back is
index `offset` here), and so is the call stack. -/
structure OldVm where
  status : OldStatus
  nextInstruction : ByteCodePointer
  heap : OldHeap
  dataStack : List Nat
  callStack : List ByteCodePointer
  tracer : List TraceEntry
  fuzzableClosures : List (Nat × Nat)
  deriving Repr

/-- `Vm::new()`. -/
def OldVm.new : OldVm :=
  ⟨.done OldValue.nothing, ByteCodePointer.nullPointer, [], [], [], [], []⟩

/-- `Vm::panic`: set the status to `Panicked` with a text payload. -/
def OldVm.panic (s : OldVm) (message : String) : OldVm :=
  { s with status := .panicked (.text message) }

/-- Pop `n` addresses off the data stack (`none` where Rust's
`pop().unwrap()` would abort). -/
def popN (stack : List Nat) : Nat → Option (List Nat × List Nat)
  | 0 => some ([], stack)
  | n + 1 =>
      match stack with
      | [] => none
      | a :: rest =>
          match popN rest n with
          | none => none
          | some (popped, remaining) => some (a :: popped, remaining)

/-- Group a list into consecutive pairs (the `chunks(2)` of
`CreateStruct`); `none` on an odd-length list (the source asserts even
length). -/
def chunkPairs : List Nat → Option (List (Nat × Nat))
  | [] => some []
  | k :: v :: rest => (chunkPairs rest).map fun l => (k, v) :: l
  | [_] => none

/-- `Vm::run_instruction`.  `none` models the Rust process aborts of the
source: popping an empty stack, dereferencing an invalid address, calling a
non-closure/non-builtin (`panic!("Can only call closures and builtins.")`),
returning with an empty call stack, and dispatch of a builtin call
(`run_builtin_function`'s `builtin_functions.rs` of this generation is not
among the sources; no claim depends on builtins). -/
def OldVm.runInstruction (s : OldVm) : OldInstruction → Option OldVm
  | .createInt i =>
      let r := s.heap.create (.int i)
      some { s with heap := r.1, dataStack := r.2 :: s.dataStack }
  | .createText t =>
      let r := s.heap.create (.text t)
      some { s with heap := r.1, dataStack := r.2 :: s.dataStack }
  | .createSymbol sym =>
      let r := s.heap.create (.symbol sym)
      some { s with heap := r.1, dataStack := r.2 :: s.dataStack }
  | .createStruct numEntries =>
      match popN s.dataStack (2 * numEntries) with
      | none => none
      | some (keyValueAddresses, remaining) =>
          match chunkPairs keyValueAddresses.reverse with
          | none => none
          | some entries =>
              let r := s.heap.create (.struct entries)
              some { s with heap := r.1, dataStack := r.2 :: remaining }
  | .createClosure numArgs body =>
      let captured := s.dataStack.reverse
      let heap := captured.foldl OldHeap.dup s.heap
      let r := heap.create (.closure captured numArgs body)
      some { s with heap := r.1, dataStack := r.2 :: s.dataStack }
  | .createBuiltin b =>
      let r := s.heap.create (.builtin b)
      some { s with heap := r.1, dataStack := r.2 :: s.dataStack }
  | .popMultipleBelowTop n =>
      match s.dataStack with
      | [] => none
      | top :: rest =>
          match popN rest n with
          | none => none
          | some (dropped, remaining) =>
              some { s with heap := dropped.foldl OldHeap.dropRef s.heap,
                            dataStack := top :: remaining }
  | .pushFromStack offset =>
      match s.dataStack.get? offset with
      | none => none
      | some address =>
          some { s with heap := s.heap.dup address, dataStack := address :: s.dataStack }
  | .call numArgs =>
      match s.dataStack with
      | [] => none
      | closureAddress :: stackRest =>
          match popN stackRest numArgs with
          | none => none
          | some (poppedArgs, remaining) =>
              let args := poppedArgs.reverse
              match s.heap.getData closureAddress with
              | some (.closure captured expectedNumArgs _) =>
                  if numArgs ≠ expectedNumArgs then
                    some ({ s with dataStack := remaining }.panic
                      ("Closure expects " ++ toString expectedNumArgs ++
                        " parameters, but you called it with " ++ toString numArgs ++
                        " arguments."))
                  else
                    some { s with
                      dataStack := args.reverse ++ (captured.reverse ++ remaining),
                      heap := captured.foldl OldHeap.dup s.heap,
                      callStack := s.nextInstruction :: s.callStack,
                      nextInstruction := ⟨closureAddress, 0⟩ }
              | some (.builtin _) => none
              | _ => none
  | .needs =>
      match s.dataStack with
      | condition :: message :: remaining =>
          match s.heap.getData condition with
          | some (.symbol sym) =>
              if sym = "True" then
                let r := importVal s.heap OldValue.nothing
                some { s with heap := r.1, dataStack := r.2 :: remaining }
              else if sym = "False" then
                some { s with
                  status := .panicked (s.heap.exportWithoutDropping message),
                  dataStack := remaining }
              else
                some ({ s with dataStack := remaining }.panic
                  "Needs expects True or False as a symbol.")
          | some _ =>
              some ({ s with dataStack := remaining }.panic
                "Needs expects a boolean symbol.")
          | none => none
      | _ => none
  | .ret =>
      match s.callStack with
      | [] => none
      | caller :: rest =>
          some { s with heap := s.heap.dropRef s.nextInstruction.closure,
                        nextInstruction := caller, callStack := rest }
  | .registerFuzzableClosure id =>
      match s.dataStack with
      | [] => none
      | closure :: _ =>
          some { s with fuzzableClosures := s.fuzzableClosures ++ [(id, closure)] }
  | .traceValueEvaluated id =>
      match s.dataStack with
      | [] => none
      | address :: _ =>
          some { s with tracer := s.tracer ++
            [.valueEvaluated id (s.heap.exportWithoutDropping address)] }
  | .traceCallStarts id numArgs =>
      match s.dataStack with
      | [] => none
      | closureAddress :: rest =>
          if numArgs ≤ rest.length then
            some { s with tracer := s.tracer ++
              [.callStarted id (s.heap.exportWithoutDropping closureAddress)
                ((rest.take numArgs).reverse.map s.heap.exportWithoutDropping)] }
          else none
  | .traceCallEnds =>
      match s.dataStack with
      | [] => none
      | returnValueAddress :: _ =>
          some { s with tracer := s.tracer ++
            [.callEnded (s.heap.exportWithoutDropping returnValueAddress)] }
  | .traceNeedsStarts id =>
      match s.dataStack with
      | condition :: message :: _ =>
          some { s with tracer := s.tracer ++
            [.needsStarted id (s.heap.exportWithoutDropping condition)
              (s.heap.exportWithoutDropping message)] }
      | _ => none
  | .traceNeedsEnds => some { s with tracer := s.tracer ++ [.needsEnded] }
  | .error e =>
      some (s.panic
        ("The VM crashed because there was an error in previous compilation stages: " ++
          toString e))

/-- One iteration of the `while` loop of `Vm::run`: fetch the current
closure's body, fetch and advance past the next instruction, run it, then
mark the VM `Done` (with `Value::nothing()`) when the instruction pointer
has moved past the end of the fetched body. -/
def OldVm.step (s : OldVm) : Option OldVm :=
  match s.heap.getData s.nextInstruction.closure with
  | some (.closure _ _ body) =>
      match body.get? s.nextInstruction.instruction with
      | none => none
      | some instruction =>
          let s1 := { s with nextInstruction :=
            ⟨s.nextInstruction.closure, s.nextInstruction.instruction + 1⟩ }
          match s1.runInstruction instruction with
          | none => none
          | some s2 =>
              if body.length ≤ s2.nextInstruction.instruction then
                some { s2 with status := .done OldValue.nothing }
              else some s2
  | _ => none

/-- The `while` loop of `Vm::run`: run while `Running` and budget remains. -/
def OldVm.runLoop : Nat → OldVm → Option OldVm
  | 0, s => some s
  | n + 1, s =>
      if s.status.isRunning then
        match s.step with
        | none => none
        | some s' => OldVm.runLoop n s'
      else some s

/-- `Vm::run(num_instructions)`: assert the VM is running (a Rust
`assert!`, so `none` otherwise), then loop. -/
def OldVm.run (numInstructions : Nat) (s : OldVm) : Option OldVm :=
  if s.status.isRunning then OldVm.runLoop numInstructions s else none

/-- `Vm::start_closure`: import the arguments and the closure, point at the
closure, run one `Call` instruction, then (unconditionally) set the status
to `Running`.  `none` models the source's panics/asserts (non-closure
argument, arity mismatch with the provided arguments). -/
def OldVm.startClosure (s : OldVm) (closure : OldValue) (arguments : List OldValue) :
    Option OldVm :=
  match closure with
  | .closure _ numArgs _ =>
      if numArgs = arguments.length then
        let s1 := arguments.foldl (fun acc arg =>
          let r := importVal acc.heap arg
          { acc with heap := r.1, dataStack := r.2 :: acc.dataStack }) s
        let r := importVal s1.heap closure
        let s2 := { s1 with heap := r.1, dataStack := r.2 :: s1.dataStack,
                            nextInstruction := ⟨r.2, 0⟩ }
        match s2.runInstruction (.call numArgs) with
        | none => none
        | some s3 => some { s3 with status := .running }
      else none
  | _ => none

mutual

/-- Importing only appends to the heap. -/
theorem importVal_prefix : ∀ (v : OldValue) (h : OldHeap),
    ∃ d, (importVal h v).1 = List.append h d
  | .int i, h => ⟨[.int i], rfl⟩
  | .text t, h => ⟨[.text t], rfl⟩
  | .symbol s, h => ⟨[.symbol s], rfl⟩
  | .struct entries, h => by
      obtain ⟨d, hd⟩ := importPairs_prefix entries h
      refine ⟨List.append d [.struct (importPairs h entries).2], ?_⟩
      show List.append (importPairs h entries).1 _ = _
      rw [hd]; simp only [List.append_eq, List.append_assoc]
  | .closure captured numArgs body, h => by
      obtain ⟨d, hd⟩ := importList_prefix captured h
      refine ⟨List.append d [.closure (importList h captured).2 numArgs body], ?_⟩
      show List.append (importList h captured).1 _ = _
      rw [hd]; simp only [List.append_eq, List.append_assoc]
  | .builtin b, h => ⟨[.builtin b], rfl⟩

theorem importList_prefix : ∀ (vs : List OldValue) (h : OldHeap),
    ∃ d, (importList h vs).1 = List.append h d
  | [], h => ⟨[], by simp [importList]⟩
  | v :: vs, h => by
      obtain ⟨d1, hd1⟩ := importVal_prefix v h
      obtain ⟨d2, hd2⟩ := importList_prefix vs (importVal h v).1
      refine ⟨List.append d1 d2, ?_⟩
      show (importList (importVal h v).1 vs).1 = _
      rw [hd2, hd1]; simp only [List.append_eq, List.append_assoc]

theorem importPairs_prefix : ∀ (kvs : List (OldValue × OldValue)) (h : OldHeap),
    ∃ d, (importPairs h kvs).1 = List.append h d
  | [], h => ⟨[], by simp [importPairs]⟩
  | (k, v) :: kvs, h => by
      obtain ⟨d1, hd1⟩ := importVal_prefix k h
      obtain ⟨d2, hd2⟩ := importVal_prefix v (importVal h k).1
      obtain ⟨d3, hd3⟩ := importPairs_prefix kvs (importVal (importVal h k).1 v).1
      refine ⟨List.append d1 (List.append d2 d3), ?_⟩
      show (importPairs (importVal (importVal h k).1 v).1 kvs).1 = _
      rw [hd3, hd2, hd1]; simp only [List.append_eq, List.append_assoc]

end

/-- The root of an import is the last allocated cell. -/
theorem importVal_addr (v : OldValue) (h : OldHeap) :
    (importVal h v).2 + 1 = (importVal h v).1.length := by
  cases v <;> simp [importVal, OldHeap.create, List.length_append]

/-- Addresses returned by a list import are valid in the resulting heap. -/
theorem importList_addrs : ∀ (vs : List OldValue) (h : OldHeap),
    ∀ a ∈ (importList h vs).2, a < (importList h vs).1.length
  | [], h => by simp [importList]
  | v :: vs, h => by
      intro a ha
      rw [importList] at ha ⊢
      simp only [List.mem_cons] at ha
      rcases ha with rfl | ha
      · have h1 := importVal_addr v h
        obtain ⟨d, hd⟩ := importList_prefix vs (importVal h v).1
        rw [hd]
        simp only [List.append_eq, List.length_append]
        omega
      · exact importList_addrs vs (importVal h v).1 a ha

/-- Addresses returned by a pair import are valid in the resulting heap. -/
theorem importPairs_addrs : ∀ (kvs : List (OldValue × OldValue)) (h : OldHeap),
    ∀ p ∈ (importPairs h kvs).2,
      p.1 < (importPairs h kvs).1.length ∧ p.2 < (importPairs h kvs).1.length
  | [], h => by simp [importPairs]
  | (k, v) :: kvs, h => by
      intro p hp
      rw [importPairs] at hp ⊢
      simp only [List.mem_cons] at hp
      rcases hp with rfl | hp
      · have h1 := importVal_addr k h
        have h2 := importVal_addr v (importVal h k).1
        obtain ⟨d2, hd2⟩ := importVal_prefix v (importVal h k).1
        obtain ⟨d3, hd3⟩ := importPairs_prefix kvs (importVal (importVal h k).1 v).1
        have hlen2 : (importVal (importVal h k).1 v).1.length
            = (importVal h k).1.length + d2.length := by
          rw [hd2]; simp [List.length_append]
        rw [hd3, hd2]
        simp only [List.append_eq, List.length_append]
        omega
      · exact importPairs_addrs kvs (importVal (importVal h k).1 v).1 p hp

/-- Reading the freshly created cell back out of an extended arena. -/
theorem getData_append_self (h : OldHeap) (d : OldData) (rest : List OldData) :
    OldHeap.getData (List.append (List.append h [d]) rest) h.length = some d := by
  simp only [OldHeap.getData, List.get?_eq_getElem?, List.append_eq, List.append_assoc]
  rw [List.getElem?_append_right (Nat.le_refl _)]
  simp

/-- One-step unfolding of `exportVal` with positive fuel. -/
theorem exportVal_succ (h : OldHeap) (f a : Nat) :
    exportVal h (f + 1) a =
      match h.getData a with
      | none => .symbol ""
      | some (.int i) => .int i
      | some (.text t) => .text t
      | some (.symbol s) => .symbol s
      | some (.struct entries) =>
          .struct (entries.map fun kv => (exportVal h f kv.1, exportVal h f kv.2))
      | some (.closure captured numArgs body) =>
          .closure (captured.map (exportVal h f)) numArgs body
      | some (.builtin b) => .builtin b := rfl

mutual

/-- Exporting an imported value from any extension of the arena gives the
value back, provided the fuel exceeds the root address. -/
theorem export_importVal : ∀ (v : OldValue) (h : OldHeap) (rest : List OldData)
    (fuel : Nat), (importVal h v).2 < fuel →
    exportVal (List.append (importVal h v).1 rest) fuel (importVal h v).2 = v
  | .int i, h => by
      intro rest fuel hf
      cases fuel with
      | zero => omega
      | succ f =>
        show exportVal (List.append (List.append h [OldData.int i]) rest) (f + 1)
            h.length = OldValue.int i
        rw [exportVal_succ, getData_append_self]
  | .text t, h => by
      intro rest fuel hf
      cases fuel with
      | zero => omega
      | succ f =>
        show exportVal (List.append (List.append h [OldData.text t]) rest) (f + 1)
            h.length = OldValue.text t
        rw [exportVal_succ, getData_append_self]
  | .symbol s, h => by
      intro rest fuel hf
      cases fuel with
      | zero => omega
      | succ f =>
        show exportVal (List.append (List.append h [OldData.symbol s]) rest) (f + 1)
            h.length = OldValue.symbol s
        rw [exportVal_succ, getData_append_self]
  | .builtin b, h => by
      intro rest fuel hf
      cases fuel with
      | zero => omega
      | succ f =>
        show exportVal (List.append (List.append h [OldData.builtin b]) rest) (f + 1)
            h.length = OldValue.builtin b
        rw [exportVal_succ, getData_append_self]
  | .struct entries, h => by
      intro rest fuel hf
      cases fuel with
      | zero => omega
      | succ f =>
        have hf' : (importPairs h entries).1.length < f + 1 := hf
        show exportVal (List.append (List.append (importPairs h entries).1
            [.struct (importPairs h entries).2]) rest) (f + 1)
            (importPairs h entries).1.length = OldValue.struct entries
        rw [exportVal_succ, getData_append_self]
        have hA : List.append (List.append (importPairs h entries).1
              [OldData.struct (importPairs h entries).2]) rest
            = List.append (importPairs h entries).1
              (List.append [OldData.struct (importPairs h entries).2] rest) := by
          simp [List.append_eq, List.append_assoc]
        rw [hA]
        have hrec := export_importPairs entries h
          (List.append [OldData.struct (importPairs h entries).2] rest) f
          (fun p hp => by
            have hb := importPairs_addrs entries h p hp
            exact ⟨by omega, by omega⟩)
        exact congrArg OldValue.struct hrec
  | .closure captured numArgs body, h => by
      intro rest fuel hf
      cases fuel with
      | zero => omega
      | succ f =>
        have hf' : (importList h captured).1.length < f + 1 := hf
        show exportVal (List.append (List.append (importList h captured).1
            [.closure (importList h captured).2 numArgs body]) rest) (f + 1)
            (importList h captured).1.length = OldValue.closure captured numArgs body
        rw [exportVal_succ, getData_append_self]
        have hA : List.append (List.append (importList h captured).1
              [OldData.closure (importList h captured).2 numArgs body]) rest
            = List.append (importList h captured).1
              (List.append [OldData.closure (importList h captured).2 numArgs body] rest) := by
          simp [List.append_eq, List.append_assoc]
        rw [hA]
        have hrec := export_importList captured h
          (List.append [OldData.closure (importList h captured).2 numArgs body] rest) f
          (fun a ha => by
            have hb := importList_addrs captured h a ha
            omega)
        exact congrArg (fun cs => OldValue.closure cs numArgs body) hrec

theorem export_importList : ∀ (vs : List OldValue) (h : OldHeap) (rest : List OldData)
    (fuel : Nat), (∀ a ∈ (importList h vs).2, a < fuel) →
    (importList h vs).2.map (exportVal (List.append (importList h vs).1 rest) fuel) = vs
  | [], h => by intro rest fuel _; rfl
  | v :: vs, h => by
      intro rest fuel hf
      have hf' : ∀ a ∈ (importVal h v).2 :: (importList (importVal h v).1 vs).2,
          a < fuel := hf
      obtain ⟨d, hd⟩ := importList_prefix vs (importVal h v).1
      have hA : List.append (importList (importVal h v).1 vs).1 rest
          = List.append (importVal h v).1 (List.append d rest) := by
        rw [hd]; simp [List.append_eq, List.append_assoc]
      have hhead : exportVal (List.append (importList (importVal h v).1 vs).1 rest)
          fuel (importVal h v).2 = v := by
        rw [hA]
        exact export_importVal v h (List.append d rest) fuel
          (hf' _ (List.mem_cons_self _ _))
      have htail := export_importList vs (importVal h v).1 rest fuel
        (fun a ha => hf' a (List.mem_cons_of_mem _ ha))
      show ((importVal h v).2 :: (importList (importVal h v).1 vs).2).map
          (exportVal (List.append (importList (importVal h v).1 vs).1 rest) fuel) = v :: vs
      rw [List.map_cons, hhead, htail]

theorem export_importPairs : ∀ (kvs : List (OldValue × OldValue)) (h : OldHeap)
    (rest : List OldData) (fuel : Nat),
    (∀ p ∈ (importPairs h kvs).2, p.1 < fuel ∧ p.2 < fuel) →
    (importPairs h kvs).2.map
      (fun kv => (exportVal (List.append (importPairs h kvs).1 rest) fuel kv.1,
                  exportVal (List.append (importPairs h kvs).1 rest) fuel kv.2)) = kvs
  | [], h => by intro rest fuel _; rfl
  | (k, v) :: kvs, h => by
      intro rest fuel hf
      have hf' : ∀ p ∈ ((importVal h k).2, (importVal (importVal h k).1 v).2)
          :: (importPairs (importVal (importVal h k).1 v).1 kvs).2,
          p.1 < fuel ∧ p.2 < fuel := hf
      obtain ⟨d2, hd2⟩ := importVal_prefix v (importVal h k).1
      obtain ⟨d3, hd3⟩ := importPairs_prefix kvs (importVal (importVal h k).1 v).1
      have hA1 : List.append (importPairs (importVal (importVal h k).1 v).1 kvs).1 rest
          = List.append (importVal h k).1 (List.append d2 (List.append d3 rest)) := by
        rw [hd3, hd2]; simp [List.append_eq, List.append_assoc]
      have hA2 : List.append (importPairs (importVal (importVal h k).1 v).1 kvs).1 rest
          = List.append (importVal (importVal h k).1 v).1 (List.append d3 rest) := by
        rw [hd3]; simp [List.append_eq, List.append_assoc]
      have hkey : exportVal (List.append (importPairs (importVal (importVal h k).1 v).1
          kvs).1 rest) fuel (importVal h k).2 = k := by
        rw [hA1]
        exact export_importVal k h (List.append d2 (List.append d3 rest)) fuel
          (hf' _ (List.mem_cons_self _ _)).1
      have hval : exportVal (List.append (importPairs (importVal (importVal h k).1 v).1
          kvs).1 rest) fuel (importVal (importVal h k).1 v).2 = v := by
        rw [hA2]
        exact export_importVal v (importVal h k).1 (List.append d3 rest) fuel
          (hf' _ (List.mem_cons_self _ _)).2
      have htail := export_importPairs kvs (importVal (importVal h k).1 v).1 rest fuel
        (fun p hp => hf' p (List.mem_cons_of_mem _ hp))
      show (((importVal h k).2, (importVal (importVal h k).1 v).2)
          :: (importPairs (importVal (importVal h k).1 v).1 kvs).2).map
          (fun kv => (exportVal (List.append (importPairs (importVal (importVal h k).1 v).1
              kvs).1 rest) fuel kv.1,
            exportVal (List.append (importPairs (importVal (importVal h k).1 v).1
              kvs).1 rest) fuel kv.2)) = (k, v) :: kvs
      rw [List.map_cons, htail]
      simp only [hkey, hval]

end

/-- C6: a `Call` whose target is a closure expecting `m` parameters, invoked
with `n ≠ m` arguments, immediately sets the fiber's status to `Panicked`
with a message naming the expected and actual counts, and the run loop then
executes no further instruction: it returns the panicked state unchanged for
every remaining budget. -/
theorem c6_call_arity_mismatch_panics
    (s : OldVm) (numArgs expectedNumArgs closureAddress : Nat)
    (stackRest poppedArgs remaining captured : List Nat)
    (body : List OldInstruction)
    (hstack : s.dataStack = closureAddress :: stackRest)
    (hpop : popN stackRest numArgs = some (poppedArgs, remaining))
    (htarget : s.heap.getData closureAddress
      = some (.closure captured expectedNumArgs body))
    (hne : numArgs ≠ expectedNumArgs) :
    s.runInstruction (.call numArgs)
      = some { s with
          dataStack := remaining,
          status := .panicked (.text ("Closure expects " ++ toString expectedNumArgs
            ++ " parameters, but you called it with " ++ toString numArgs
            ++ " arguments.")) }
    ∧ ∀ k, OldVm.runLoop k { s with
          dataStack := remaining,
          status := .panicked (.text ("Closure expects " ++ toString expectedNumArgs
            ++ " parameters, but you called it with " ++ toString numArgs
            ++ " arguments.")) }
        = some { s with
          dataStack := remaining,
          status := .panicked (.text ("Closure expects " ++ toString expectedNumArgs
            ++ " parameters, but you called it with " ++ toString numArgs
            ++ " arguments.")) } := by
  constructor
  · show OldVm.runInstruction s (.call numArgs) = _
    rw [OldVm.runInstruction, hstack]
    simp only [hpop, htarget]
    rw [if_pos hne]
    rfl
  · intro k
    cases k with
    | zero => rfl
    | succ n =>
      rw [OldVm.runLoop]
      rw [if_neg]
      simp [OldStatus.isRunning]

/-- Witness for `c6_call_arity_mismatch_panics` at a concrete state: a
closure of arity 1 at address 0, called with 0 arguments. -/
theorem c6_call_arity_mismatch_panics_witness :
    (OldVm.runInstruction ⟨.running, ⟨0, 0⟩, [.closure [] 1 []], [0], [], [], []⟩
        (.call 0)
      = some { (⟨.running, ⟨0, 0⟩, [.closure [] 1 []], [0], [], [], []⟩ : OldVm) with
          dataStack := [],
          status := .panicked (.text ("Closure expects " ++ toString 1
            ++ " parameters, but you called it with " ++ toString 0
            ++ " arguments.")) })
    ∧ ∀ k, OldVm.runLoop k { (⟨.running, ⟨0, 0⟩, [.closure [] 1 []], [0], [], [], []⟩ : OldVm) with
          dataStack := [],
          status := .panicked (.text ("Closure expects " ++ toString 1
            ++ " parameters, but you called it with " ++ toString 0
            ++ " arguments.")) }
        = some { (⟨.running, ⟨0, 0⟩, [.closure [] 1 []], [0], [], [], []⟩ : OldVm) with
          dataStack := [],
          status := .panicked (.text ("Closure expects " ++ toString 1
            ++ " parameters, but you called it with " ++ toString 0
            ++ " arguments.")) } :=
  c6_call_arity_mismatch_panics
    ⟨.running, ⟨0, 0⟩, [.closure [] 1 []], [0], [], [], []⟩
    0 1 0 [] [] [] [] [] rfl rfl rfl (by decide)

/-- C7 counterexample: a `Call` whose target is an `Int` (neither closure
nor builtin) does not produce any successor state with a `Panicked` status —
the source hits a Rust `panic!` (a process abort, modelled as `none`), so
the fiber's status never becomes `Panicked` and the scheduler never regains
control. -/
theorem c7_counterexample_noncallable_aborts :
    OldVm.runInstruction ⟨.running, ⟨0, 0⟩, [.int 42], [0], [], [], []⟩ (.call 0)
      = none := rfl

/-- C7 amended: a `Call` whose target value is neither a closure nor a
builtin reaches the source's `panic!("Can only call closures and
builtins.")` — a Rust process abort, modelled as `none` — instead of setting
the fiber's status to `Panicked`: no successor fiber state of any status
exists. -/
theorem c7_noncallable_call_aborts
    (s : OldVm) (numArgs closureAddress : Nat)
    (stackRest poppedArgs remaining : List Nat) (d : OldData)
    (hstack : s.dataStack = closureAddress :: stackRest)
    (hpop : popN stackRest numArgs = some (poppedArgs, remaining))
    (htarget : s.heap.getData closureAddress = some d)
    (hnc : ∀ c n b, d ≠ OldData.closure c n b)
    (hnb : ∀ b, d ≠ OldData.builtin b) :
    s.runInstruction (.call numArgs) = none := by
  show OldVm.runInstruction s (.call numArgs) = none
  rw [OldVm.runInstruction, hstack]
  simp only [hpop, htarget]
  cases d with
  | closure c n b => exact absurd rfl (hnc c n b)
  | builtin b => rfl
  | int i => rfl
  | text t => rfl
  | symbol sym => rfl
  | struct entries => rfl

/-- Witness for `c7_noncallable_call_aborts`: calling the `Int` at address 0
with zero arguments. -/
theorem c7_noncallable_call_aborts_witness :
    OldVm.runInstruction ⟨.running, ⟨0, 0⟩, [.int 7], [0], [], [], []⟩ (.call 0)
      = none :=
  c7_noncallable_call_aborts
    ⟨.running, ⟨0, 0⟩, [.int 7], [0], [], [], []⟩
    0 0 [] [] [] (.int 7) rfl rfl rfl
    (by intro c n b h; cases h) (by intro b h; cases h)

/-- Reading back the cell just created by `Heap::create`. -/
theorem getData_create (h : OldHeap) (d : OldData) :
    OldHeap.getData (List.append h [d]) h.length = some d := by
  simp only [OldHeap.getData, List.get?_eq_getElem?, List.append_eq]
  rw [List.getElem?_append_right (Nat.le_refl _)]
  simp

/-- C8 counterexample: running the arity-1 identity closure on `Int 42` to
completion ends with status `Done (Symbol "Nothing")` — `Vm::run` always
stores `Value::nothing()` in `Done`, never the closure's result — and
`Symbol "Nothing"` is not the input `Int 42`. -/
theorem c8_counterexample_done_is_nothing :
    (((OldVm.new.startClosure (OldValue.closure [] 1 [.pushFromStack 0])
          [OldValue.int 42]).bind (OldVm.run 5)).map OldVm.status
      = some (OldStatus.done (OldValue.symbol "Nothing")))
    ∧ OldValue.symbol "Nothing" ≠ OldValue.int 42 :=
  ⟨rfl, fun h => OldValue.noConfusion h⟩

/-- C8 amended: for every value `v`, starting the arity-1 identity closure
on `v` and running it to completion (any budget of at least two loop
iterations) ends with status `Done (Symbol "Nothing")` — `Vm::run` always
stores `Value::nothing()` in `Done`, never the closure's result — while the
returned value sits on top of the data stack and exports (without dropping)
back to `v`. -/
theorem c8_identity_run_amended (v : OldValue) :
    ∃ s₁ s₂ : OldVm,
      OldVm.new.startClosure (OldValue.closure [] 1 [.pushFromStack 0]) [v] = some s₁
      ∧ (∀ k, OldVm.run (k + 2) s₁ = some s₂)
      ∧ s₂.status = OldStatus.done OldValue.nothing
      ∧ ∃ addr rest, s₂.dataStack = addr :: rest
          ∧ s₂.heap.exportWithoutDropping addr = v := by
  refine ⟨⟨.running, ⟨(importVal [] v).1.length, 0⟩,
      List.append (importVal [] v).1 [.closure [] 1 [.pushFromStack 0]],
      [(importVal [] v).2], [⟨(importVal [] v).1.length, 0⟩], [], []⟩,
    ⟨.done OldValue.nothing, ⟨(importVal [] v).1.length, 1⟩,
      List.append (importVal [] v).1 [.closure [] 1 [.pushFromStack 0]],
      [(importVal [] v).2, (importVal [] v).2],
      [⟨(importVal [] v).1.length, 0⟩], [], []⟩,
    ?_, ?_, rfl, (importVal [] v).2, [(importVal [] v).2], rfl, ?_⟩
  · have hg := getData_create (importVal [] v).1
      (.closure [] 1 [.pushFromStack 0])
    have hcall : OldVm.runInstruction
        ⟨.done OldValue.nothing, ⟨(importVal [] v).1.length, 0⟩,
          List.append (importVal [] v).1 [.closure [] 1 [.pushFromStack 0]],
          [(importVal [] v).1.length, (importVal [] v).2], [], [], []⟩ (.call 1)
        = some ⟨.done OldValue.nothing, ⟨(importVal [] v).1.length, 0⟩,
            List.append (importVal [] v).1 [.closure [] 1 [.pushFromStack 0]],
            [(importVal [] v).2], [⟨(importVal [] v).1.length, 0⟩], [], []⟩ := by
      rw [OldVm.runInstruction]
      simp only [popN, hg]
      norm_num
    show (match OldVm.runInstruction
        ⟨.done OldValue.nothing, ⟨(importVal [] v).1.length, 0⟩,
          List.append (importVal [] v).1 [.closure [] 1 [.pushFromStack 0]],
          [(importVal [] v).1.length, (importVal [] v).2], [], [], []⟩ (.call 1) with
      | none => none
      | some s3 => some { s3 with status := OldStatus.running }) = _
    rw [hcall]
  · have hg := getData_create (importVal [] v).1
      (.closure [] 1 [.pushFromStack 0])
    have hstep : OldVm.step
        ⟨.running, ⟨(importVal [] v).1.length, 0⟩,
          List.append (importVal [] v).1 [.closure [] 1 [.pushFromStack 0]],
          [(importVal [] v).2], [⟨(importVal [] v).1.length, 0⟩], [], []⟩
        = some ⟨.done OldValue.nothing, ⟨(importVal [] v).1.length, 1⟩,
            List.append (importVal [] v).1 [.closure [] 1 [.pushFromStack 0]],
            [(importVal [] v).2, (importVal [] v).2],
            [⟨(importVal [] v).1.length, 0⟩], [], []⟩ := by
      rw [OldVm.step]
      simp only [hg, List.get?, OldVm.runInstruction, OldHeap.dup]
      norm_num
    intro k
    show (match OldVm.step
        ⟨.running, ⟨(importVal [] v).1.length, 0⟩,
          List.append (importVal [] v).1 [.closure [] 1 [.pushFromStack 0]],
          [(importVal [] v).2], [⟨(importVal [] v).1.length, 0⟩], [], []⟩ with
      | none => none
      | some s' => OldVm.runLoop (k + 1) s') = _
    rw [hstep]
    rfl
  · exact export_importVal v [] [.closure [] 1 [.pushFromStack 0]]
      ((importVal [] v).2 + 1) (Nat.lt_succ_self _)
